import Mathlib

/-!
# Verification of the installed-item indexing engine (`src/installedIndex.ts`)

This file is a shallow embedding, in Lean 4, of the content-package token
resolution and installed-item indexing engine of the repository.  Each
definition mirrors one TypeScript function of `src/installedIndex.ts`
(the second document of `src/unnamed/part_005`, lines 1861 and following),
keeping the source's names where Lean allows it.

Modelling conventions, used throughout:

* JavaScript strings are Lean `String`s; every string operation used by the
  source (`trim`, `toLowerCase`, `split`, regex replacement) is re-implemented
  here over `List Char` so that all definitions are executable and
  kernel-reducible.  JS whitespace (`\s`, `trim`) is modelled by the ASCII
  whitespace characters (tab, LF, VT, FF, CR, space); `toLowerCase` is
  modelled on ASCII letters.  The identifiers and keys handled by this engine
  are ASCII, so these restrictions do not affect any claim.
* Regex replacements are modelled by explicit left-to-right scanners with the
  exact leftmost-match / continue-after-match / restart-at-next-character
  semantics of `String.prototype.replace` with a global regex.  The scanners
  take a fuel argument that strictly decreases on every step; every wrapper
  supplies fuel at least the length of the scanned text, which is always
  sufficient because each scanner step consumes at least one character.
* `String.prototype.localeCompare` (used by `stableStringify` key sorting and
  by the category-bucket sort) is modelled by comparing collation keys:
  a primary pass that orders ASCII punctuation below digits below
  case-folded letters, followed by a tertiary pass that orders lowercase
  before uppercase.  This mirrors the ICU root collation (the default of the
  Node/Electron runtime the extension runs in) on the ASCII identifiers this
  engine produces.
* Parsed JSON documents are values of the inductive type `Json`.  JSON
  numbers are modelled as integers (the engine's own output contains no
  numbers at all).  Parsed objects carry their keys in document order and,
  having come from a JSON parser, never carry duplicate keys.
* `Array.prototype.sort` (a stable sort in JS) is modelled by
  `List.insertionSort`, which is likewise stable.
-/

namespace SMS

/-! ## Character and string primitives -/

/-- The `{` character, kept abstract so brace text never appears verbatim. -/
def lbrace : Char := Char.ofNat 123

/-- The `}` character. -/
def rbrace : Char := Char.ofNat 125

/-- The string consisting of the two characters `{{`. -/
def lb2 : String := String.mk [lbrace, lbrace]

/-- The string consisting of the two characters `}}`. -/
def rb2 : String := String.mk [rbrace, rbrace]

/-- JS whitespace (the ASCII part of `\s` / `String.prototype.trim`). -/
def isJsWs (c : Char) : Bool :=
  c.toNat = 32 ∨ (9 ≤ c.toNat ∧ c.toNat ≤ 13)

def isAsciiUpper (c : Char) : Bool := 65 ≤ c.toNat ∧ c.toNat ≤ 90

def isAsciiLower (c : Char) : Bool := 97 ≤ c.toNat ∧ c.toNat ≤ 122

def isAsciiDigit (c : Char) : Bool := 48 ≤ c.toNat ∧ c.toNat ≤ 57

/-- ASCII `toLowerCase`, as applied by JS to the identifiers handled here. -/
def jsCharLower (c : Char) : Char :=
  if isAsciiUpper c then Char.ofNat (c.toNat + 32) else c

def jsLowerList (l : List Char) : List Char := l.map jsCharLower

/-- `String.prototype.toLowerCase`, restricted to ASCII. -/
def jsLower (s : String) : String := String.mk (jsLowerList s.data)

def dropWsList (l : List Char) : List Char := l.dropWhile isJsWs

def jsTrimList (l : List Char) : List Char :=
  (dropWsList ((dropWsList l.reverse).reverse))

/-- `String.prototype.trim`. -/
def jsTrim (s : String) : String := String.mk (jsTrimList s.data)

/-- `split` of a JS string on a one-character separator
(`String.prototype.split`), as used with `/` and `,`. -/
def splitOnCharList (sep : Char) (l : List Char) : List (List Char) :=
  match l with
  | [] => [[]]
  | c :: cs =>
    let rest := splitOnCharList sep cs
    if c = sep then [] :: rest
    else
      match rest with
      | [] => [[c]]
      | r :: rs => (c :: r) :: rs

def splitOnChar (sep : Char) (s : String) : List String :=
  (splitOnCharList sep s.data).map String.mk

/-- Case-insensitive removal of a literal ASCII pattern from the front of a
character list (used for the fixed words `modid`, `i18n`, `LocalizedText`
matched case-insensitively by the source's regexes). -/
def stripCI (pat : List Char) (l : List Char) : Option (List Char) :=
  match pat, l with
  | [], rest => some rest
  | _ :: _, [] => none
  | p :: ps, c :: cs => if jsCharLower c = jsCharLower p then stripCI ps cs else none

/-! ## The `localeCompare` collation model -/

/-- Primary collation weight: ASCII punctuation and whitespace below digits
below case-folded letters; non-ASCII above everything, by code point. -/
def primaryWeight (c : Char) : Nat :=
  if isAsciiLower c then 768 + (c.toNat - 97)
  else if isAsciiUpper c then 768 + (c.toNat - 65)
  else if isAsciiDigit c then 512 + (c.toNat - 48)
  else if c.toNat < 128 then 1 + c.toNat
  else 65536 + c.toNat

/-- Tertiary collation weight: lowercase (and everything else) before
uppercase, as in the ICU root collation. -/
def tertiaryWeight (c : Char) : Nat := if isAsciiUpper c then 2 else 1

/-- Collation key for `String.prototype.localeCompare`: all primary weights,
a level separator, then all tertiary weights. -/
def collKey (s : String) : List Nat :=
  s.data.map primaryWeight ++ 0 :: s.data.map tertiaryWeight

/-- `a.localeCompare(b) <= 0`, the order the source's sorts ascend by. -/
def locLe (a b : String) : Prop := collKey a ≤ collKey b

instance : DecidableRel locLe := fun a b =>
  inferInstanceAs (Decidable (collKey a ≤ collKey b))

/-! ## The JSON value model -/

inductive Json where
  | jnull
  | jbool (b : Bool)
  | jnum (n : Int)
  | jstr (s : String)
  | jarr (xs : List Json)
  | jobj (kvs : List (String × Json))

/-- JS property access `o[k]` on a parsed JSON value: `some` for a present
property of an object, `none` (JS `undefined`) otherwise.  With duplicate
keys the JSON parser keeps the last occurrence, hence the reversed search. -/
def Json.getField (j : Json) (k : String) : Option Json :=
  match j with
  | .jobj kvs => ((kvs.reverse).find? (fun p => p.1 = k)).map (·.2)
  | _ => none

/-- `typeof v === "string" ? v : undefined`. -/
def Json.asStr (j : Json) : Option String :=
  match j with
  | .jstr s => some s
  | _ => none

def Json.getStr (j : Json) (k : String) : Option String :=
  (j.getField k).bind Json.asStr

/-- JS truthiness of a parsed JSON value. -/
def Json.truthy (j : Json) : Bool :=
  match j with
  | .jnull => false
  | .jbool b => b
  | .jnum n => n ≠ 0
  | .jstr s => s ≠ ""
  | .jarr _ => true
  | .jobj _ => true

def jsOptTruthy (j : Option Json) : Bool :=
  match j with
  | none => false
  | some v => v.truthy

/-- `isObjectRecord` (line 1996): a non-null object that is not an array. -/
def isObjectRecord (j : Json) : Bool :=
  match j with
  | .jobj _ => true
  | _ => false

/-- `value && typeof value === "object"`: object or array. -/
def isJsObjectLike (j : Json) : Bool :=
  match j with
  | .jobj _ => true
  | .jarr _ => true
  | _ => false

/-- The key/value pairs `Object.keys(v)` + indexing iterates over: an
object's properties in document order, an array's elements under their
index strings. -/
def entriesKVs (j : Json) : List (String × Json) :=
  match j with
  | .jobj kvs => kvs
  | .jarr xs => (xs.enum.map fun p => (toString p.1, p.2))
  | _ => []

/-- `String(v ?? "")` as applied by `buildIncludeTokenMap` to local-token
values: JS string coercion of a parsed JSON value. -/
def jsStringCoerce (j : Json) : String :=
  match j with
  | .jnull => ""
  | .jbool b => if b then "true" else "false"
  | .jnum n => toString n
  | .jstr s => s
  | .jarr xs => String.intercalate "," (xs.map fun x =>
      match x with
      | .jnull => ""
      | .jbool b => if b then "true" else "false"
      | .jnum n => toString n
      | .jstr s => s
      | .jarr _ => ""
      | .jobj _ => "[object Object]")
  | .jobj _ => "[object Object]"

/-! ## Token tables (JS `Map<string, string>` in insertion order) -/

/-- A JS `Map<string,string>`: pairs in insertion order, keys unique. -/
abbrev TokMap := List (String × String)

/-- `Map.prototype.get`. -/
def tmGet (m : TokMap) (k : String) : Option String :=
  (List.find? (fun p => p.1 = k) m).map (·.2)

/-- `Map.prototype.set`: overwrite in place, else append. -/
def tmSet (m : TokMap) (k v : String) : TokMap :=
  if (List.any m (fun p => p.1 = k)) then
    List.map (fun p => if p.1 = k then (k, v) else p) m
  else m ++ [(k, v)]

def tmIsEmpty (m : TokMap) : Bool := List.isEmpty m

/-! ## Scanner infrastructure

Each regex of the source is modelled by a structural scanner.  The scanners
walk the character list left to right; at a potential match start they
attempt the whole match, emit its replacement and continue after it, and on
failure emit one character and retry from the next position — exactly the
semantics of a global-regex `replace`/`exec` loop.  A fuel argument makes the
recursion structural; fuel is consumed one unit per emitted character or
match, so any fuel of at least the text length yields the scan's fixpoint
(wrappers pass the length plus one). -/

/-- Split at the first occurrence of the character `b` (the split-off suffix
starts with `b`, or is empty when `b` does not occur). -/
def breakAtChar (b : Char) (l : List Char) : List Char × List Char :=
  match l with
  | [] => ([], [])
  | c :: cs =>
    if c = b then ([], c :: cs)
    else
      let p := breakAtChar b cs
      (c :: p.1, p.2)

/-- Split at the first occurrence of either brace character. -/
def breakAtBrace (l : List Char) : List Char × List Char :=
  match l with
  | [] => ([], [])
  | c :: cs =>
    if c = lbrace ∨ c = rbrace then ([], c :: cs)
    else
      let p := breakAtBrace cs
      (c :: p.1, p.2)

/-! ## Token expansion (`expandDynamicTokens`, `expandTokensDeep`)

The regex is `\{\{\s*([^}:]+?)\s*}}` with a replacer that skips the reserved
names `i18n` and `modid` (case-insensitively, after trimming) and otherwise
substitutes the table value when the (lowercased) name is present.  Because
`\s` and `[^}:]` both exclude `}` and the final `}}` is literal, a match
starting at a `{{` ends exactly at the first following `}`, which must be
doubled; the content must be non-empty and contain no `:`; the captured
group always trims to the trimmed content. -/

/-- The replacer of lines 2029–2036: trimmed, lowercased token name; keep the
match for the reserved families and unknown names, else the table value. -/
def cpReplacer (tokenMap : TokMap) (w : List Char) : Option (List Char) :=
  let lower := jsLower (jsTrim (String.mk w))
  if lower = "i18n" ∨ lower = "modid" then none
  else
    match tmGet tokenMap lower with
    | some v => some v.data
    | none => none

/-- One global pass of `replace(/\{\{\s*([^}:]+?)\s*}}/g, fn)`. -/
def cpScan (tokenMap : TokMap) : Nat → List Char → List Char
  | 0, l => l
  | _ + 1, [] => []
  | fuel + 1, c1 :: cs =>
    if c1 = lbrace ∧ cs.head? = some lbrace then
      let body := cs.tail
      let p := breakAtChar rbrace body
      match p.2 with
      | _ :: r1 :: rest =>
        if r1 = rbrace ∧ p.1 ≠ [] ∧ p.1.contains ':' = false then
          (match cpReplacer tokenMap p.1 with
           | some out => out
           | none => c1 :: lbrace :: (p.1 ++ [rbrace, rbrace])) ++
            cpScan tokenMap fuel rest
        else c1 :: cpScan tokenMap fuel cs
      | _ => c1 :: cpScan tokenMap fuel cs
    else c1 :: cpScan tokenMap fuel cs

/-- One rewriting pass over a string (the body of the loop in
`expandTokensDeep`, and the whole of `expandDynamicTokens`). -/
def cpPass (tokenMap : TokMap) (s : String) : String :=
  String.mk (cpScan tokenMap (s.data.length + 1) s.data)

/-- `expandDynamicTokens` (lines 1972–1986): single pass, with the empty
table fast path. -/
def expandDynamicTokens (input : String) (dynamicTokens : TokMap) : String :=
  if tmIsEmpty dynamicTokens then input else cpPass dynamicTokens input

/-- The pass loop of `expandTokensDeep`: stop as soon as a pass changes
nothing, giving up after `maxPasses` passes. -/
def expandLoop (tokenMap : TokMap) : Nat → String → String
  | 0, value => value
  | passes + 1, value =>
    let next := cpPass tokenMap value
    if next = value then value else expandLoop tokenMap passes next

/-- `expandTokensDeep` (lines 2019–2043) with its default of ten passes. -/
def expandTokensDeep (input : String) (tokenMap : TokMap) : String :=
  if tmIsEmpty tokenMap then input else expandLoop tokenMap 10 input

mutual

/-- `expandTokensInAny` (lines 2045–2066): recursive expansion through
strings, arrays and objects (keys included; non-table and reserved tokens
left verbatim by `expandTokensDeep`). -/
def expandTokensInAny (tokenMap : TokMap) : Json → Json
  | .jnull => .jnull
  | .jbool b => .jbool b
  | .jnum n => .jnum n
  | .jstr s => .jstr (expandTokensDeep s tokenMap)
  | .jarr xs => .jarr (expandTokensInAnyList tokenMap xs)
  | .jobj kvs => .jobj (expandTokensInAnyKvs tokenMap kvs)

/-- Array case of `expandTokensInAny`. -/
def expandTokensInAnyList (tokenMap : TokMap) : List Json → List Json
  | [] => []
  | x :: xs => expandTokensInAny tokenMap x :: expandTokensInAnyList tokenMap xs

/-- Object case of `expandTokensInAny`: keys are expanded too. -/
def expandTokensInAnyKvs (tokenMap : TokMap) : List (String × Json) → List (String × Json)
  | [] => []
  | (k, v) :: kvs =>
    (expandTokensDeep k tokenMap, expandTokensInAny tokenMap v) ::
      expandTokensInAnyKvs tokenMap kvs

end

/-- `hasAnyCpToken` (lines 1992–1994): does `/\{\{[^}]+\}\}/` match?  A match
needs a `{{`, at least one non-`}` character, then the first following `}`
doubled. -/
def hasAnyCpTokenScan : Nat → List Char → Bool
  | 0, _ => false
  | _ + 1, [] => false
  | fuel + 1, c1 :: cs =>
    if c1 = lbrace ∧ cs.head? = some lbrace then
      let p := breakAtChar rbrace cs.tail
      match p.2 with
      | _ :: r1 :: _ => if r1 = rbrace ∧ p.1 ≠ [] then true else hasAnyCpTokenScan fuel cs
      | _ => hasAnyCpTokenScan fuel cs
    else hasAnyCpTokenScan fuel cs

def hasAnyCpToken (s : String) : Bool :=
  hasAnyCpTokenScan (s.data.length + 1) s.data

/-! ## The `{{modid}}` substitution

`s.replace(/\{\{\s*modid\s*\}\}/gi, modId)`: literal braces around optional
whitespace and the case-insensitive word `modid`.  ($-patterns in the
replacement string are not modelled; mod ids contain no `$`.) -/

/-- Try to match `\s*modid\s*\}\}` and return the rest after the match. -/
def modidTail (l : List Char) : Option (List Char) :=
  match stripCI "modid".data (dropWsList l) with
  | none => none
  | some t2 =>
    match dropWsList t2 with
    | c :: c' :: rest => if c = rbrace ∧ c' = rbrace then some rest else none
    | _ => none

def modidScan (modId : List Char) : Nat → List Char → List Char
  | 0, l => l
  | _ + 1, [] => []
  | fuel + 1, c1 :: cs =>
    if c1 = lbrace ∧ cs.head? = some lbrace then
      match modidTail cs.tail with
      | some rest => modId ++ modidScan modId fuel rest
      | none => c1 :: modidScan modId fuel cs
    else c1 :: modidScan modId fuel cs

/-- `s.replace(/\{\{\s*modid\s*\}\}/gi, modId)`. -/
def replaceModidTokens (s : String) (modId : String) : String :=
  String.mk (modidScan modId.data (s.data.length + 1) s.data)

/-! ## i18n token resolution (`resolveI18nTokensInString`)

The regex is `\{\{\s*i18n\s*:\s*([^{}]+?)\s*}}` (case-insensitive) with a
replacer that keeps the match for a blank key, substitutes the trimmed
translation for a key with a non-blank translation, and substitutes the bare
key otherwise.  The inner key excludes both braces, so a match ends at the
first brace after the colon, which must be a doubled `}`. -/

/-- The replacer of lines 2134–2142, given the captured content `w` (which
trims to the captured group): `none` keeps the matched text. -/
def i18nReplacer (modI18n : TokMap) (w : List Char) : Option (List Char) :=
  let key := jsTrim (String.mk w)
  if key = "" then none
  else
    match tmGet modI18n key with
    | some translated =>
      if jsTrim translated ≠ "" then some (jsTrim translated).data else some key.data
    | none => some key.data

/-- Try to match `\s*i18n\s*:\s*([^{}]+?)\s*}}` after a `{{`; returns the
captured content and the rest after the match. -/
def i18nTail (l : List Char) : Option (List Char × List Char) :=
  match stripCI "i18n".data (dropWsList l) with
  | none => none
  | some t2 =>
    match dropWsList t2 with
    | c :: t3 =>
      if c = ':' then
        let p := breakAtBrace t3
        match p.2 with
        | b0 :: b1 :: rest =>
          if b0 = rbrace ∧ b1 = rbrace ∧ p.1 ≠ [] then some (p.1, rest) else none
        | _ => none
      else none
    | [] => none

def i18nScan (modI18n : TokMap) : Nat → List Char → List Char
  | 0, l => l
  | _ + 1, [] => []
  | fuel + 1, c1 :: cs =>
    if c1 = lbrace ∧ cs.head? = some lbrace then
      match i18nTail cs.tail with
      | some (w, rest) =>
        (match i18nReplacer modI18n w with
         | some out => out
         | none =>
           c1 :: lbrace :: (cs.tail.take (cs.tail.length - rest.length))) ++
          i18nScan modI18n fuel rest
      | none => c1 :: i18nScan modI18n fuel cs
    else c1 :: i18nScan modI18n fuel cs

def i18nPass (modI18n : TokMap) (s : String) : String :=
  String.mk (i18nScan modI18n (s.data.length + 1) s.data)

/-- The pass loop of `resolveI18nTokensInString` (break on fixpoint). -/
def i18nLoop (modI18n : TokMap) : Nat → String → String
  | 0, value => value
  | passes + 1, value =>
    let next := i18nPass modI18n value
    if next = value then value else i18nLoop modI18n passes next

/-- `resolveI18nTokensInString` (lines 2121–2149) with its default of ten
passes, including the empty-table fast path that returns the input with any
placeholders left intact. -/
def resolveI18nTokensInString (input : String) (modI18n : TokMap) : String :=
  if tmIsEmpty modI18n then input else i18nLoop modI18n 10 input

/-! ## `[LocalizedText ...]` prettification -/

/-- `friendlyFromLocalizedTextKey` (lines 2075–2094): strip quote runs and
trim, keep the part after the last colon, strip `_Name`-style and
`.Name`-style suffixes, underscores to spaces, split camelCase boundaries,
collapse whitespace; fall back to the raw key when everything vanished. -/
def dropQuoteRuns (l : List Char) : List Char :=
  ((l.dropWhile (fun c => c = '"')).reverse.dropWhile (fun c => c = '"')).reverse

/-- The part after the last `:` (`key.slice(key.lastIndexOf(":") + 1)`). -/
def afterLastColon (l : List Char) : List Char :=
  ((breakAtChar ':' l.reverse).1).reverse

/-- Case-insensitive `endsWith` for ASCII patterns. -/
def endsWithCI (pat : String) (l : List Char) : Bool :=
  decide (jsLowerList (l.drop (l.length - pat.data.length)) = pat.data) ∧
    decide (pat.data.length ≤ l.length)

/-- `tail.replace(/_(DisplayName|Name|title|Title|label|Label)$/i, "")`.  The
four possible suffixes are mutually exclusive, so a single ends-with test per
alternative is the leftmost match. -/
def stripUnderscoreSuffix (l : List Char) : List Char :=
  if endsWithCI "_displayname" l then l.take (l.length - 12)
  else if endsWithCI "_name" l then l.take (l.length - 5)
  else if endsWithCI "_title" l then l.take (l.length - 6)
  else if endsWithCI "_label" l then l.take (l.length - 6)
  else l

/-- `tail.replace(/\.?(DisplayName|Name)$/i, "")`, leftmost match: a longer
suffix, and the optional dot, win over the shorter ones. -/
def stripNameSuffix (l : List Char) : List Char :=
  if endsWithCI ".displayname" l then l.take (l.length - 12)
  else if endsWithCI "displayname" l then l.take (l.length - 11)
  else if endsWithCI ".name" l then l.take (l.length - 5)
  else if endsWithCI "name" l then l.take (l.length - 4)
  else l

/-- `tail.replace(/_/g, " ")`. -/
def underscoresToSpaces (l : List Char) : List Char :=
  l.map (fun c => if c = '_' then ' ' else c)

/-- `tail.replace(/([a-z0-9])([A-Z])/g, "$1 $2")`: both characters of a match
are consumed, so an uppercase run only breaks once. -/
def camelSplit : List Char → List Char
  | [] => []
  | [c] => [c]
  | a :: b :: rest =>
    if (isAsciiLower a ∨ isAsciiDigit a) ∧ isAsciiUpper b then
      a :: ' ' :: b :: camelSplit rest
    else a :: camelSplit (b :: rest)

mutual

/-- `s.replace(/\s+/g, " ")`: each whitespace run becomes one space. -/
def collapseWsList : List Char → List Char
  | [] => []
  | c :: cs => if isJsWs c then ' ' :: collapseWsRun cs else c :: collapseWsList cs

/-- Inside a whitespace run: skip to its end. -/
def collapseWsRun : List Char → List Char
  | [] => []
  | c :: cs => if isJsWs c then collapseWsRun cs else c :: collapseWsList cs

end

def collapseWs (s : String) : String := String.mk (collapseWsList s.data)

def friendlyFromLocalizedTextKey (rawKey : String) : String :=
  if rawKey = "" then rawKey
  else
    let key := jsTrimList (dropQuoteRuns rawKey.data)
    let tail0 := jsTrimList (afterLastColon key)
    let tail1 := stripNameSuffix (stripUnderscoreSuffix tail0)
    let tail2 := camelSplit (underscoresToSpaces tail1)
    let tail3 := jsTrim (collapseWs (String.mk tail2))
    if tail3 = "" then rawKey else tail3

/-- Try to match `\s*LocalizedText\s+([^\]]+?)\s*]` after a `[`; returns the
captured content (which trims to the captured group) and the rest.  The
content may not contain `]`, so the match ends at the first `]`; at least
one whitespace character must separate the word from the content. -/
def locTextTail (l : List Char) : Option (List Char × List Char) :=
  match stripCI "localizedtext".data (dropWsList l) with
  | none => none
  | some t2 =>
    match t2 with
    | c :: _ =>
      if isJsWs c then
        let p := breakAtChar ']' t2
        match p.2 with
        | _ :: rest => if p.1.length ≥ 2 then some (p.1, rest) else none
        | [] => none
      else none
    | [] => none

/-- `resolveLocalizedTextInString` (lines 2101–2111): replace each
`[LocalizedText ...]` with its friendly form, keeping the match when the
friendly form is empty. -/
def locTextScan : Nat → List Char → List Char
  | 0, l => l
  | _ + 1, [] => []
  | fuel + 1, c1 :: cs =>
    if c1 = '[' then
      match locTextTail cs with
      | some (w, rest) =>
        let friendly := friendlyFromLocalizedTextKey (jsTrim (String.mk w))
        (if friendly = "" then c1 :: (cs.take (cs.length - rest.length))
         else friendly.data) ++ locTextScan fuel rest
      | none => c1 :: locTextScan fuel cs
    else c1 :: locTextScan fuel cs

def resolveLocalizedTextInString (input : String) : String :=
  String.mk (locTextScan (input.data.length + 1) input.data)

/-! ## Display-name resolution -/

/-- `makeNameReadable` (lines 2158–2176). -/
def makeNameReadable (input : String) (modI18n : TokMap) (modId : String)
    (dynamicTokens : TokMap) : String :=
  let s1 := expandDynamicTokens input dynamicTokens
  let s2 := replaceModidTokens s1 modId
  let s3 := resolveI18nTokensInString s2 modI18n
  let s4 := resolveLocalizedTextInString s3
  jsTrim (collapseWs s4)

/-- `resolveItemDisplayName` (lines 2493–2518): prefer `DisplayName`, then
`Displayname`, then `Name`; fall back to the inner id when absent, blank, or
unreadable. -/
def resolveItemDisplayName (entryData : Option Json) (innerId : String)
    (modI18n : TokMap) (modId : String) (dynamicTokens : TokMap) : String :=
  let nameCandidate : Option String :=
    match entryData with
    | some d =>
      match d.getStr "DisplayName" with
      | some s => some (jsTrim s)
      | none =>
        match d.getStr "Displayname" with
        | some s => some (jsTrim s)
        | none =>
          match d.getStr "Name" with
          | some s => some (jsTrim s)
          | none => none
    | none => none
  match nameCandidate with
  | none => innerId
  | some c =>
    if c = "" then innerId
    else
      let readable := makeNameReadable c modI18n modId dynamicTokens
      if readable = "" then innerId else readable

/-- The shared shape of `resolveFurnitureInlineDisplayName` (slot 7),
`resolveBootsInlineDisplayName` (slot 6) and `resolveHatsInlineDisplayName`
(slot 5), lines 2523–2602: expand tokens, split on `/`, read the
schema-specific display slot, fall back to the internal-name slot, then the
inner id. -/
def resolveInlineDisplayName (slot : Nat) (rawValue : String) (innerId : String)
    (modI18n : TokMap) (modId : String) (dynamicTokens : TokMap) : String :=
  if jsTrim rawValue = "" then innerId
  else
    let expanded := expandDynamicTokens rawValue dynamicTokens
    let parts := splitOnChar '/' expanded
    let internalName := jsTrim (parts.getD 0 "")
    let displayPart := jsTrim (parts.getD slot "")
    if displayPart = "" then
      if internalName = "" then innerId else internalName
    else
      let readable := makeNameReadable displayPart modI18n modId dynamicTokens
      if readable = "" then
        if internalName = "" then innerId else internalName
      else readable

/-! ## Qualified-identifier extraction (`extractQualifiedIdsFromText`)

The regex is `\(([A-Z]+)\)([A-Za-z0-9._-]+)\b`, matched repeatedly with
`exec`.  The uppercase run and the body run are maximal; the trailing word
boundary backtracks the body over trailing `.`/`-` characters (the only body
characters that are not word characters) until it ends in a word character,
failing if that empties it. -/

def isBodyChar (c : Char) : Bool :=
  isAsciiUpper c ∨ isAsciiLower c ∨ isAsciiDigit c ∨ c = '.' ∨ c = '_' ∨ c = '-'

def isWordChar (c : Char) : Bool :=
  isAsciiUpper c ∨ isAsciiLower c ∨ isAsciiDigit c ∨ c = '_'

/-- Try to match `([A-Z]+)\)([A-Za-z0-9._-]+)\b` after a `(`; returns the
two captured groups and the rest after the match. -/
def qidTail (l : List Char) : Option (String × String × List Char) :=
  let up := l.takeWhile isAsciiUpper
  if up = [] then none
  else
    match l.drop up.length with
    | c :: t2 =>
      if c = ')' then
        let body := t2.takeWhile isBodyChar
        let kept := (body.reverse.dropWhile (fun c => ¬ isWordChar c)).reverse
        if kept = [] then none
        else some (String.mk up, String.mk kept, t2.drop kept.length)
      else none
    | [] => none

def qidScan : Nat → List Char → List String
  | 0, _ => []
  | _ + 1, [] => []
  | fuel + 1, c1 :: cs =>
    if c1 = '(' then
      match qidTail cs with
      | some (up, kept, rest) =>
        ("(" ++ up ++ ")" ++ kept) :: qidScan fuel rest
      | none => qidScan fuel cs
    else qidScan fuel cs

/-- `extractQualifiedIdsFromText` (lines 2796–2817): dynamic-token and
`{{modid}}` expansion, then all qualified-identifier pattern matches. -/
def extractQualifiedIdsFromText (raw : String) (modId : String)
    (dynamicTokens : TokMap) : List String :=
  if jsTrim raw = "" then []
  else
    let s := replaceModidTokens (expandDynamicTokens raw dynamicTokens) modId
    qidScan (s.data.length + 1) s.data

/-- `Set.prototype.add`: insert at the end if absent. -/
def setAdd (s : List String) (x : String) : List String :=
  if s.contains x then s else s ++ [x]

mutual

/-- `collectQualifiedIdsFromAny` (lines 2819–2849): gather extracted ids from
every string leaf, depth first, into an insertion-ordered set. -/
def collectQualifiedIdsFromAny (value : Json) (modId : String)
    (dynamicTokens : TokMap) (into : List String) : List String :=
  match value with
  | .jstr s =>
    (extractQualifiedIdsFromText s modId dynamicTokens).foldl setAdd into
  | .jarr xs => collectQualifiedIdsList xs modId dynamicTokens into
  | .jobj kvs => collectQualifiedIdsKvs kvs modId dynamicTokens into
  | _ => into

def collectQualifiedIdsList (xs : List Json) (modId : String)
    (dynamicTokens : TokMap) (into : List String) : List String :=
  match xs with
  | [] => into
  | x :: rest =>
    collectQualifiedIdsList rest modId dynamicTokens
      (collectQualifiedIdsFromAny x modId dynamicTokens into)

def collectQualifiedIdsKvs (kvs : List (String × Json)) (modId : String)
    (dynamicTokens : TokMap) (into : List String) : List String :=
  match kvs with
  | [] => into
  | (_, v) :: rest =>
    collectQualifiedIdsKvs rest modId dynamicTokens
      (collectQualifiedIdsFromAny v modId dynamicTokens into)

end

/-! ## Ownership inference and category tables -/

/-- An installed item record (`InstalledItemInfo`, lines 1871–1875). -/
structure InstalledItemInfo where
  modId : String
  modName : String
  name : String
deriving DecidableEq

/-- `KnownModsMap`: unique id → display name, in insertion order. -/
abbrev KnownModsMap := List (String × String)

def kmGet (m : KnownModsMap) (k : String) : Option String :=
  (List.find? (fun p => p.1 = k) m).map (·.2)

/-- `s.indexOf("_")`, as `Option` position. -/
def idxOfUnderscore (l : List Char) : Option Nat :=
  (breakAtChar '_' l).2.head?.map (fun _ => (breakAtChar '_' l).1.length)

/-- `s.startsWith(knownId + ".")` or `s === knownId`. -/
def eqOrDotPrefixed (s knownId : String) : Bool :=
  s = knownId ∨ (s.data.take (knownId.data.length + 1) = knownId.data ++ ['.'])

/-- `resolveOwningModForInnerId` (lines 2419–2449). -/
def resolveOwningModForInnerId (innerId : String) (currentModId currentModName : String)
    (knownMods : KnownModsMap) : String × String :=
  if jsTrim innerId = "" then (currentModId, currentModName)
  else
    let s := jsTrim innerId
    let underscoreCase : Option (String × String) :=
      match idxOfUnderscore s.data with
      | some idx =>
        if 0 < idx then
          let candidate := String.mk (s.data.take idx)
          match kmGet knownMods candidate with
          | some knownName => some (candidate, knownName)
          | none => none
        else none
      | none => none
    match underscoreCase with
    | some r => r
    | none =>
      match knownMods.find? (fun p => eqOrDotPrefixed s p.1) with
      | some (knownId, knownName) => (knownId, knownName)
      | none => (currentModId, currentModName)

/-- `TARGET_TO_CATEGORY` (lines 2454–2464): EditData target → prefix. -/
def TARGET_TO_CATEGORY (target : String) : Option String :=
  if target = "Data/Objects" then some "O"
  else if target = "Data/BigCraftables" then some "BC"
  else if target = "Data/Weapons" then some "W"
  else if target = "Data/Furniture" then some "F"
  else if target = "Data/Boots" then some "B"
  else if target = "Data/Hats" then some "H"
  else if target = "Data/Shirts" then some "S"
  else if target = "Data/Pants" then some "P"
  else if target = "Data/Tools" then some "T"
  else none

/-- `PREFIX_TO_CATEGORY_KEY` (lines 2466–2476): the prefixes the reference
scanner accepts. -/
def PREFIX_TO_CATEGORY_KEY (pfx : String) : Option String :=
  if pfx = "O" then some "objects"
  else if pfx = "BC" then some "bigCraftables"
  else if pfx = "F" then some "furniture"
  else if pfx = "B" then some "boots"
  else if pfx = "H" then some "hats"
  else if pfx = "S" then some "shirts"
  else if pfx = "P" then some "pants"
  else if pfx = "T" then some "tools"
  else if pfx = "W" then some "weapons"
  else none

/-- `REFERENCE_TARGETS` (lines 2478–2486). -/
def REFERENCE_TARGETS : List String :=
  ["Data/Machines", "Data/CookingRecipes", "Data/CraftingRecipes",
   "Data/Shops", "Data/Events", "Data/NPCGiftTastes", "Data/Locations"]

/-- `/^\(([A-Z]+)\)(.+)$/`: a leading parenthesized maximal uppercase run
and a non-empty remainder free of line terminators. -/
def isLineTerm (c : Char) : Bool :=
  c = Char.ofNat 10 ∨ c = Char.ofNat 13 ∨ c = Char.ofNat 0x2028 ∨ c = Char.ofNat 0x2029

def parseQid (s : String) : Option (String × String) :=
  match s.data with
  | c :: rest =>
    if c = '(' then
      let up := rest.takeWhile isAsciiUpper
      if up = [] then none
      else
        match rest.drop up.length with
        | c2 :: inner =>
          if c2 = ')' ∧ inner ≠ [] ∧ inner.all (fun c => ¬ isLineTerm c) then
            some (String.mk up, String.mk inner)
          else none
        | [] => none
    else none
  | [] => none

/-! ## The shared identifier map -/

/-- `Map<string, InstalledItemInfo>` in insertion order. -/
abbrev IdMap := List (String × InstalledItemInfo)

def mapHas (m : IdMap) (k : String) : Bool := List.any m (fun p => p.1 = k)

def mapGet (m : IdMap) (k : String) : Option InstalledItemInfo :=
  (List.find? (fun p => p.1 = k) m).map (·.2)

/-- `if (!m.has(k)) m.set(k, v)` — the only write pattern the scanners use,
so first writer wins. -/
def mapSetNew (m : IdMap) (k : String) (v : InstalledItemInfo) : IdMap :=
  if mapHas m k then m else m ++ [(k, v)]

/-- `addReferenceQualifiedIdsToIndex` (lines 2863–2896): register each found
qualified id that is not baseline, not already present, parses as
`(PREFIX)inner`, and has a recognized prefix, owned per
`resolveOwningModForInnerId` with the raw inner id as display name. -/
def addReferenceStep (currentModId currentModName : String)
    (knownMods : KnownModsMap) (baseQualifiedIds : List String)
    (m : IdMap) (qid : String) : IdMap :=
  if baseQualifiedIds.contains qid then m
  else if mapHas m qid then m
  else
    match parseQid qid with
    | none => m
    | some (pfx, inner) =>
      match PREFIX_TO_CATEGORY_KEY pfx with
      | none => m
      | some _ =>
        let owner := resolveOwningModForInnerId inner currentModId currentModName knownMods
        m ++ [(qid, ⟨owner.1, owner.2, inner⟩)]

def addReferenceQualifiedIdsToIndex (found : List String)
    (currentModId currentModName : String) (knownMods : KnownModsMap)
    (baseQualifiedIds : List String) (qualifiedIdToInfo : IdMap) : IdMap :=
  found.foldl (addReferenceStep currentModId currentModName knownMods baseQualifiedIds)
    qualifiedIdToInfo

/-! ## Include expansion (`expandIncludePatches`)

The filesystem is a map from absolute paths to `none` (missing) or
`some none` (present but unreadable, unparseable, or not a JSON object —
exactly the cases where `readJsoncFile` yields `null`) or `some (some doc)`.
Every filesystem access and warning is recorded as an event so that the
claims about *not* touching the disk and about warning deduplication are
statable.  (`path.resolve` normalization and the debug-only
`debugResolvedIncludes` log are not modelled; neither affects an output.) -/

structure FileSysM where
  lookup : String → Option (Option Json)

def resolvePath (modDir p : String) : String := modDir ++ "/" ++ p

inductive IncludeEv where
  | checkExists (p : String)
  | readFile (p : String)
  | warnMissing (p : String)
  | warnParseFail (p : String)
  | logDeferred (key : String)

/-- The per-run warning dedup sets (lines 2650–2651), reset by
`resetIncludeLogCaches` at the start of each rebuild. -/
structure WarnCaches where
  warnedMissingIncludes : List String
  warnedDeferredIncludes : List String

def emptyWarnCaches : WarnCaches := ⟨[], []⟩

/-- `splitFromFileValue` (lines 2629–2645). -/
def splitFromFileValue (raw : Option Json) : List String :=
  match raw with
  | some (.jarr xs) =>
    ((xs.filterMap Json.asStr).map jsTrim).filter (fun s => s ≠ "")
  | some (.jstr s) =>
    ((splitOnChar ',' s).map jsTrim).filter (fun s => s ≠ "")
  | _ => []

/-- `buildIncludeTokenMap` (lines 2604–2627). -/
def buildIncludeTokenMap (modId : String) (dynamicTokens : TokMap)
    (localTokens : Option Json) : TokMap :=
  let m1 := dynamicTokens.foldl
    (fun acc p => tmSet acc (jsLower (jsTrim p.1)) (jsTrim p.2)) []
  let m2 :=
    match localTokens with
    | some j =>
      if isJsObjectLike j then
        (entriesKVs j).foldl
          (fun acc p => tmSet acc (jsLower (jsTrim p.1)) (jsTrim (jsStringCoerce p.2))) m1
      else m1
    | none => m1
  tmSet m2 "modid" modId

/-- JS property assignment `child.When = v` on a parsed value (a no-op on
non-objects, whose properties no later stage can observe). -/
def Json.setField (j : Json) (k : String) (v : Json) : Json :=
  match j with
  | .jobj kvs =>
    if kvs.any (fun p => p.1 = k) then
      .jobj (kvs.map fun p => if p.1 = k then (k, v) else p)
    else .jobj (kvs ++ [(k, v)])
  | other => other

/-- Guard propagation of lines 2779–2783: a spliced child without its own
truthy `When` inherits the include's `When`. -/
def propagateWhen (patchWhen : Option Json) (child : Json) : Json :=
  match patchWhen with
  | some w =>
    if w.truthy ∧ isJsObjectLike child ∧ ¬ jsOptTruthy (child.getField "When") then
      child.setField "When" w
    else child
  | none => child

/-- State threaded through `expandIncludePatches`: output list so far, the
warning caches, and the emitted filesystem/log events. -/
structure IncludeState where
  expanded : List Json
  caches : WarnCaches
  events : List IncludeEv

/-- The body of the inner `for (const fromFileRaw of fromFiles)` loop
(lines 2703–2788), for one file reference of one include patch. -/
def includeFileStep (fsys : FileSysM) (modDir modId : String) (tokenMap : TokMap)
    (patch : Json) (st : IncludeState) (fromFileRaw : String) : IncludeState :=
  let fromFile := jsTrim fromFileRaw
  if fromFile = "" then st
  else
    let fromFileExpanded := expandTokensDeep fromFile tokenMap
    if hasAnyCpToken fromFileExpanded then
      let key := modId ++ "::" ++ fromFileExpanded
      if st.caches.warnedDeferredIncludes.contains key then
        { st with expanded := st.expanded ++ [patch] }
      else
        { expanded := st.expanded ++ [patch],
          caches := { st.caches with
            warnedDeferredIncludes := st.caches.warnedDeferredIncludes ++ [key] },
          events := st.events ++ [IncludeEv.logDeferred key] }
    else
      let includeAbs := resolvePath modDir fromFileExpanded
      let st := { st with events := st.events ++ [IncludeEv.checkExists includeAbs] }
      match fsys.lookup includeAbs with
      | none =>
        let warnKey := modId ++ "::" ++ includeAbs
        if st.caches.warnedMissingIncludes.contains warnKey then
          { st with expanded := st.expanded ++ [patch] }
        else
          { expanded := st.expanded ++ [patch],
            caches := { st.caches with
              warnedMissingIncludes := st.caches.warnedMissingIncludes ++ [warnKey] },
            events := st.events ++ [IncludeEv.warnMissing includeAbs] }
      | some parseResult =>
        let st := { st with events := st.events ++ [IncludeEv.readFile includeAbs] }
        match parseResult with
        | none =>
          { st with expanded := st.expanded ++ [patch],
                    events := st.events ++ [IncludeEv.warnParseFail includeAbs] }
        | some includedJson =>
          let includedExpanded := expandTokensInAny tokenMap includedJson
          match includedExpanded.getField "Changes" with
          | some (.jarr (c :: cs)) =>
            { st with expanded := st.expanded ++
                ((c :: cs).map (propagateWhen (patch.getField "When"))) }
          | _ =>
            { st with expanded := st.expanded ++ [includedExpanded] }

/-- The body of the outer patch loop of `expandIncludePatches`
(lines 2676–2789). -/
def includePatchStep (fsys : FileSysM) (modDir modId : String)
    (dynamicTokens : TokMap) (st : IncludeState) (patch : Json) : IncludeState :=
  if ¬ isJsObjectLike patch then st
  else if patch.getStr "Action" ≠ some "Include" then
    { st with expanded := st.expanded ++ [patch] }
  else
    let fromFiles := splitFromFileValue (patch.getField "FromFile")
    if fromFiles = [] then { st with expanded := st.expanded ++ [patch] }
    else
      let tokenMap := buildIncludeTokenMap modId dynamicTokens (patch.getField "LocalTokens")
      fromFiles.foldl (includeFileStep fsys modDir modId tokenMap patch) st

/-- `expandIncludePatches` (lines 2662–2794). -/
def expandIncludePatches (fsys : FileSysM) (changes : List Json)
    (modDir modId : String) (dynamicTokens : TokMap)
    (caches : WarnCaches) : IncludeState :=
  changes.foldl (includePatchStep fsys modDir modId dynamicTokens)
    ⟨[], caches, []⟩

/-! ## The patch scanner (`scanContentJson`'s patch loop, lines 2982–3131) -/

/-- The per-entry body of the item-defining branch (lines 3030–3130). -/
def scanEntryStep (modId modName : String) (modI18n : TokMap)
    (baseQualifiedIds : List String) (dynamicTokens : TokMap)
    (target pfx : String) (m : IdMap) (kv : String × Json) : IdMap :=
  let rawInnerId := jsTrim kv.1
  if rawInnerId = "" then m
  else if rawInnerId = "When" then m
  else
    let entryData := kv.2
    let innerId := replaceModidTokens (expandDynamicTokens rawInnerId dynamicTokens) modId
    let qualifiedId := "(" ++ pfx ++ ")" ++ innerId
    if baseQualifiedIds.contains qualifiedId then m
    else
      let displayName :=
        match target, entryData.asStr with
        | "Data/Furniture", some raw =>
          resolveInlineDisplayName 7 raw innerId modI18n modId dynamicTokens
        | "Data/Boots", some raw =>
          resolveInlineDisplayName 6 raw innerId modI18n modId dynamicTokens
        | "Data/Hats", some raw =>
          resolveInlineDisplayName 5 raw innerId modI18n modId dynamicTokens
        | _, _ =>
          resolveItemDisplayName (some entryData) innerId modI18n modId dynamicTokens
      let m1 := mapSetNew m qualifiedId ⟨modId, modName, displayName⟩
      match target, entryData.getStr "Name" with
      | "Data/Objects", some rawName =>
        if isObjectRecord entryData ∧ jsTrim rawName ≠ "" then
          let nameInnerId :=
            replaceModidTokens (expandDynamicTokens (jsTrim rawName) dynamicTokens) modId
          if nameInnerId ≠ "" ∧ nameInnerId ≠ innerId then
            let aliasQualifiedId := "(" ++ pfx ++ ")" ++ nameInnerId
            if baseQualifiedIds.contains aliasQualifiedId then m1
            else
              let aliasDisplayName :=
                resolveItemDisplayName (some entryData) nameInnerId modI18n modId dynamicTokens
              mapSetNew m1 aliasQualifiedId ⟨modId, modName, aliasDisplayName⟩
          else m1
        else m1
      | _, _ => m1

/-- The body of the `for (const patch of changes)` loop. -/
def scanPatchStep (modId modName : String) (modI18n : TokMap)
    (baseQualifiedIds : List String) (knownMods : KnownModsMap)
    (dynamicTokens : TokMap) (m : IdMap) (patch : Json) : IdMap :=
  if ¬ isJsObjectLike patch then m
  else if (patch.getStr "Action" == some "EditData") &&
      (match patch.getStr "Target" with
       | some t => REFERENCE_TARGETS.contains t
       | none => false) then
    let found :=
      match patch.getField "Entries" with
      | some entries =>
        if isJsObjectLike entries then
          collectQualifiedIdsFromAny entries modId dynamicTokens []
        else collectQualifiedIdsFromAny patch modId dynamicTokens []
      | none => collectQualifiedIdsFromAny patch modId dynamicTokens []
    addReferenceQualifiedIdsToIndex found modId modName knownMods baseQualifiedIds m
  else if patch.getStr "Action" ≠ some "EditData" then m
  else
    match patch.getStr "Target" with
    | none => m
    | some target =>
      match TARGET_TO_CATEGORY target with
      | none => m
      | some pfx =>
        if jsOptTruthy (patch.getField "TargetField") then m
        else
          match patch.getField "Entries" with
          | some entries =>
            if isJsObjectLike entries then
              (entriesKVs entries).foldl
                (scanEntryStep modId modName modI18n baseQualifiedIds dynamicTokens target pfx) m
            else m
          | none => m

/-- The patch loop over an include-expanded operation list. -/
def scanChanges (modId modName : String) (modI18n : TokMap)
    (baseQualifiedIds : List String) (knownMods : KnownModsMap)
    (dynamicTokens : TokMap) (changes : List Json) (m : IdMap) : IdMap :=
  changes.foldl
    (scanPatchStep modId modName modI18n baseQualifiedIds knownMods dynamicTokens) m

/-- Substring test (for the `template` filename check of
`shouldSkipDirectIndexingAsTemplate`, lines 2851–2861). -/
def containsSub (pat : List Char) : List Char → Bool
  | [] => List.isPrefixOf pat []
  | c :: cs => List.isPrefixOf pat (c :: cs) ∨ containsSub pat cs

/-- Merging of file-level `DynamicTokens` on top of the mod-level table
(lines 2947–2968; also the shape of `loadModDynamicTokens`). -/
def dynTokensFromDoc (doc : Json) (start : TokMap) : TokMap :=
  match doc.getField "DynamicTokens" with
  | some (.jarr defs) =>
    defs.foldl
      (fun acc td =>
        match td.getStr "Name" with
        | some nm =>
          match td.getField "Value" with
          | some (.jstr v) =>
            if jsTrim v ≠ "" then tmSet acc (jsLower (jsTrim nm)) (jsTrim v) else acc
          | _ => acc
        | none => acc)
      start
  | _ => start

/-- `scanContentJson` (lines 2898–3132), over an already-parsed document
(`fileBase` is the file's base name, used only for the template skip;
read/parse failures return the map unchanged a fortiori). -/
def scanContentDoc (fsys : FileSysM) (fileBase : String) (doc : Json)
    (modDir modId modName : String) (modI18n : TokMap)
    (baseQualifiedIds : List String) (knownMods : KnownModsMap)
    (modDynamicTokens : TokMap) (m : IdMap) (caches : WarnCaches) :
    IdMap × WarnCaches :=
  if ¬ isJsObjectLike doc then (m, caches)
  else
    let isTemplate :=
      containsSub "template".data (jsLower fileBase).data &&
        (match doc.getField "Changes" with
         | some (.jarr _) => true
         | _ => false)
    if isTemplate then (m, caches)
    else
      let dynamicTokens := dynTokensFromDoc doc modDynamicTokens
      match doc.getField "Changes" with
      | some (.jarr changesRaw) =>
        let st := expandIncludePatches fsys changesRaw modDir modId dynamicTokens caches
        (scanChanges modId modName modI18n baseQualifiedIds knownMods dynamicTokens
          st.expanded m,
         st.caches)
      | _ => (m, caches)

/-! ## Canonical serialization (`stableStringify`, lines 3242–3267)

`stableStringify` recursively sorts object keys with `localeCompare` and
pretty-prints with `JSON.stringify(· , null, 2)`.  The cycle guard
(`WeakSet`) can never fire on a parsed JSON tree and is not modelled. -/

/-- Key order used by `Object.keys(v).sort((a, b) => a.localeCompare(b))`. -/
def kvLocLe (a b : String × Json) : Prop := locLe a.1 b.1

instance : DecidableRel kvLocLe := fun a b =>
  inferInstanceAs (Decidable (locLe a.1 b.1))

instance : IsTotal (String × Json) kvLocLe :=
  ⟨fun a b => le_total (collKey a.1) (collKey b.1)⟩

instance : IsTrans (String × Json) kvLocLe :=
  ⟨fun _ _ _ h1 h2 => le_trans h1 h2⟩

mutual

/-- The `normalize` closure inside `stableStringify`. -/
def jnorm : Json → Json
  | .jnull => .jnull
  | .jbool b => .jbool b
  | .jnum n => .jnum n
  | .jstr s => .jstr s
  | .jarr xs => .jarr (jnormList xs)
  | .jobj kvs => .jobj (List.insertionSort kvLocLe (jnormKvs kvs))

def jnormList : List Json → List Json
  | [] => []
  | x :: xs => jnorm x :: jnormList xs

def jnormKvs : List (String × Json) → List (String × Json)
  | [] => []
  | (k, v) :: kvs => (k, jnorm v) :: jnormKvs kvs

end

/-- JSON string escaping as in `JSON.stringify`. -/
def escChar (c : Char) : List Char :=
  if c = '"' then ['\\', '"']
  else if c = '\\' then ['\\', '\\']
  else if c.toNat = 10 then ['\\', 'n']
  else if c.toNat = 13 then ['\\', 'r']
  else if c.toNat = 9 then ['\\', 't']
  else if c.toNat = 8 then ['\\', 'b']
  else if c.toNat = 12 then ['\\', 'f']
  else if c.toNat < 32 then
    ['\\', 'u', '0', '0',
     (if c.toNat / 16 = 1 then '1' else '0'),
     (let d := c.toNat % 16
      if d < 10 then Char.ofNat (48 + d) else Char.ofNat (87 + d))]
  else [c]

def escapeJsonString (s : String) : String :=
  "\"" ++ String.mk (s.data.foldr (fun c acc => escChar c ++ acc) []) ++ "\""

def pad (n : Nat) : String := String.mk (List.replicate n ' ')

mutual

/-- `JSON.stringify(v, null, 2)` on a normalized tree. -/
def jser : Json → Nat → String
  | .jnull, _ => "null"
  | .jbool b, _ => if b then "true" else "false"
  | .jnum n, _ => toString n
  | .jstr s, _ => escapeJsonString s
  | .jarr [], _ => "[]"
  | .jarr (x :: xs), ind =>
    "[\n" ++ jserItems (x :: xs) (ind + 2) ++ "\n" ++ pad ind ++ "]"
  | .jobj [], _ => String.mk [lbrace, rbrace]
  | .jobj (kv :: kvs), ind =>
    String.mk [lbrace] ++ "\n" ++ jserProps (kv :: kvs) (ind + 2) ++ "\n" ++
      pad ind ++ String.mk [rbrace]

def jserItems : List Json → Nat → String
  | [], _ => ""
  | [x], ind => pad ind ++ jser x ind
  | x :: y :: xs, ind => pad ind ++ jser x ind ++ ",\n" ++ jserItems (y :: xs) ind

def jserProps : List (String × Json) → Nat → String
  | [], _ => ""
  | [(k, v)], ind => pad ind ++ escapeJsonString k ++ ": " ++ jser v ind
  | (k, v) :: p :: kvs, ind =>
    pad ind ++ escapeJsonString k ++ ": " ++ jser v ind ++ ",\n" ++
      jserProps (p :: kvs) ind

end

/-- `stableStringify` (lines 3242–3267). -/
def stableStringify (value : Json) : String := jser (jnorm value) 0

/-! ## The idempotent writer (`writeFileIfChangedJson`, lines 3284–3311) -/

/-- The on-disk state of the output file.  `onDisk raw parsedObj` carries the
raw text and what `tryReadJsoncObject` yields for it: `some` exactly when the
text parses to a JSON object or array (otherwise `readJsoncFile`-style
reading returns `null`).  `unreadable` is a file that exists but whose reads
throw. -/
inductive FileState where
  | missing
  | unreadable
  | onDisk (raw : String) (parsedObj : Option Json)

/-- `tryReadJsoncObject` (lines 3269–3282). -/
def tryReadJsoncObject : FileState → Option Json
  | .missing => none
  | .unreadable => none
  | .onDisk _ parsedObj => parsedObj

/-- What parsing the freshly written canonical text yields: JSON text
round-trips, so the normalized object when it is an object or array, and no
object otherwise. -/
def parsedAfterWrite (j : Json) : Option Json :=
  match jnorm j with
  | .jobj kvs => some (.jobj kvs)
  | .jarr xs => some (.jarr xs)
  | _ => none

/-- `writeFileIfChangedJson` (lines 3284–3311), returning the `changed` flag
and the resulting file state. -/
def writeFileIfChangedJson (st : FileState) (nextObject : Json) :
    Bool × FileState :=
  let nextText := stableStringify nextObject
  match tryReadJsoncObject st with
  | some prevObject =>
    if stableStringify prevObject = nextText then (false, st)
    else (true, .onDisk nextText (parsedAfterWrite nextObject))
  | none =>
    match st with
    | .onDisk raw _ =>
      if raw = nextText then (false, st)
      else (true, .onDisk nextText (parsedAfterWrite nextObject))
    | _ => (true, .onDisk nextText (parsedAfterWrite nextObject))

/-! ## Index aggregation (`doRebuildInstalledItemIndex`, lines 3382–3467) -/

/-- One record of a category array of the output document. -/
structure IndexEntry where
  id : String
  name : String
  qualifiedId : String
  modId : String
  modName : String
deriving DecidableEq

/-- The thirteen fixed buckets, in the declaration order of `categories`. -/
def categoryNames : List String :=
  ["objects", "bigCraftables", "boots", "flooring", "furniture", "hats",
   "mannequins", "pants", "shirts", "tools", "trinkets", "wallpapers", "weapons"]

/-- The `switch (prefix)` of lines 3412–3443: unrecognized prefixes fall into
the generic `objects` bucket. -/
def bucketKeyForPrefix (pfx : String) : String :=
  if pfx = "O" then "objects"
  else if pfx = "BC" then "bigCraftables"
  else if pfx = "B" then "boots"
  else if pfx = "F" then "furniture"
  else if pfx = "H" then "hats"
  else if pfx = "P" then "pants"
  else if pfx = "S" then "shirts"
  else if pfx = "T" then "tools"
  else if pfx = "W" then "weapons"
  else "objects"

/-- Lines 3398–3410: parse the map key back into prefix and inner id (keys
that fail the pattern are dropped) and build the record, with
`info.name || inner` for the display name. -/
def entryOfPair (p : String × InstalledItemInfo) : Option (String × IndexEntry) :=
  match parseQid p.1 with
  | none => none
  | some (pfx, inner) =>
    some (bucketKeyForPrefix pfx,
      ⟨inner, (if p.2.name = "" then inner else p.2.name), p.1, p.2.modId, p.2.modName⟩)

/-- The contents of one bucket before sorting, in map insertion order. -/
def rawBucket (m : IdMap) (cat : String) : List IndexEntry :=
  (m.filterMap entryOfPair).filterMap
    (fun q => if q.1 = cat then some q.2 else none)

/-- The bucket sort of lines 3446–3448:
`arr.sort((a, b) => String(a.qualifiedId).localeCompare(String(b.qualifiedId)))`. -/
def entryLocLe (a b : IndexEntry) : Prop := locLe a.qualifiedId b.qualifiedId

instance : DecidableRel entryLocLe := fun a b =>
  inferInstanceAs (Decidable (locLe a.qualifiedId b.qualifiedId))

instance : IsTotal IndexEntry entryLocLe :=
  ⟨fun a b => le_total (collKey a.qualifiedId) (collKey b.qualifiedId)⟩

instance : IsTrans IndexEntry entryLocLe :=
  ⟨fun _ _ _ h1 h2 => le_trans h1 h2⟩

/-- The category arrays of the produced index document. -/
def buildCategories (m : IdMap) : List (String × List IndexEntry) :=
  categoryNames.map (fun c => (c, List.insertionSort entryLocLe (rawBucket m c)))

/-! ## Manifest identity (`readManifestIdentity`, lines 2364–2400) -/

/-- The `??` chain `json.UniqueID ?? json.UniqueId ?? json.uniqueID ??
json.uniqueId`: first field that is present with a non-null value. -/
def jsCoalesce : List (Option Json) → Option Json
  | [] => none
  | some .jnull :: rest => jsCoalesce rest
  | some v :: _ => some v
  | none :: rest => jsCoalesce rest

/-- `readManifestIdentity`.  `manifest` is `none` when `manifest.json` is
absent, `some none` when reading or parsing it throws, and `some (some j)`
when it parses to `j` (the object check happens inside, as in the source). -/
def readManifestIdentity (folderName : String) (manifest : Option (Option Json)) :
    String × String :=
  match manifest with
  | none => (folderName, folderName)
  | some none => (folderName, folderName)
  | some (some json) =>
    if isJsObjectLike json then
      let rawUniqueId := jsCoalesce
        [json.getField "UniqueID", json.getField "UniqueId",
         json.getField "uniqueID", json.getField "uniqueId"]
      let modId :=
        match rawUniqueId with
        | some (.jstr s) => if jsTrim s ≠ "" then jsTrim s else folderName
        | _ => folderName
      let modName :=
        match json.getStr "Name" with
        | some s => if jsTrim s ≠ "" then jsTrim s else modId
        | none => modId
      (modId, modName)
    else (folderName, folderName)

/-! ## The rebuild scheduler (`runRebuildGuarded`, lines 1912–1965)

The module state is `rebuildInFlight` (here: `runningAuto`, tagged with the
`auto` flag of the guarded call that started the in-flight run) and
`pendingAutoRebuild`.  `runsStarted` counts started rebuild passes.

* `requestAuto` is `runRebuildGuarded(ctx, true)`: with a run in flight it
  only sets the pending flag and returns (lines 1917–1921); when idle it
  starts a run.
* `completeRun` is the in-flight task finishing: the `finally` clears the
  handle, and lines 1961–1964 start exactly one follow-up automatic run if
  the completing call was automatic and the flag was set.

(The ten-second entry-point throttle of `rebuildInstalledItemIndex` drops
automatic requests before they reach `runRebuildGuarded`; it only reduces
the number of `requestAuto` events and is not part of this state machine.) -/

structure SchedState where
  runningAuto : Option Bool
  pendingAutoRebuild : Bool
  runsStarted : Nat
deriving DecidableEq

/-- An automatic request reaching `runRebuildGuarded`. -/
def requestAuto (s : SchedState) : SchedState :=
  match s.runningAuto with
  | some _ => { s with pendingAutoRebuild := true }
  | none => { s with runningAuto := some true, runsStarted := s.runsStarted + 1 }

/-- A `runRebuildGuarded` call beginning its own run while idle (`auto` is
the call's flag); how manual calls start after awaiting any in-flight run. -/
def startRun (auto : Bool) (s : SchedState) : SchedState :=
  { s with runningAuto := some auto, runsStarted := s.runsStarted + 1 }

/-- The in-flight run finishing (lines 1950–1964). -/
def completeRun (s : SchedState) : SchedState :=
  match s.runningAuto with
  | none => s
  | some auto =>
    if auto ∧ s.pendingAutoRebuild then
      { runningAuto := some true, pendingAutoRebuild := false,
        runsStarted := s.runsStarted + 1 }
    else { s with runningAuto := none }

/-! ## Claim-side definitions

These definitions state claim vocabulary in the claims' own words, for
comparison against the source-derived definitions above. -/

/-- Ordinary lexicographic (code-unit) string order, as claim C6 words the
bucket order.  (For the ASCII identifiers involved, UTF-16 code-unit order
and code-point order coincide.) -/
def codeUnitLe (a b : String) : Prop :=
  a.data.map Char.toNat ≤ b.data.map Char.toNat

instance : DecidableRel codeUnitLe := fun a b =>
  inferInstanceAs (Decidable (a.data.map Char.toNat ≤ b.data.map Char.toNat))

/-- One package-document scan of a rebuild pass, as fed to
`scanContentDoc`. -/
structure ScanJob where
  fileBase : String
  doc : Json
  modDir : String
  modId : String
  modName : String
  modI18n : TokMap
  modDynamicTokens : TokMap

/-- A rebuild pass over a package tree: every discovered document scanned in
order into one shared identifier map (the per-mod loop of
`doRebuildInstalledItemIndex` composed with the file walk of
`scanModFolder`). -/
def runScanJobs (fsys : FileSysM) (baseQualifiedIds : List String)
    (knownMods : KnownModsMap) (jobs : List ScanJob)
    (m : IdMap) (caches : WarnCaches) : IdMap × WarnCaches :=
  jobs.foldl
    (fun acc job =>
      scanContentDoc fsys job.fileBase job.doc job.modDir job.modId job.modName
        job.modI18n baseQualifiedIds knownMods job.modDynamicTokens acc.1 acc.2)
    (m, caches)

/-- Ownership inference as claim C7 words it: (a) the inner id splits at its
first underscore into a known package id and a rest; or (b) it equals or is
dot-prefixed by a known package id; or (c) it belongs to the scanning
package. -/
def ownerSpec (inner curId curName : String) (km : KnownModsMap)
    (o : String × String) : Prop :=
  let s := jsTrim inner
  (∃ rest, s = o.1 ++ "_" ++ rest ∧ ('_' ∉ o.1.data) ∧ o.1 ≠ "" ∧
    kmGet km o.1 = some o.2)
  ∨ ((o.1, o.2) ∈ km ∧ eqOrDotPrefixed s o.1 = true)
  ∨ (o = (curId, curName))

/-! # Theorems -/

/-! ## C4 — scheduler coalescing -/

/-- C4 (corrected): the claim quantifies over every in-flight run, but the
follow-up run of lines 1961–1964 only fires when the completing guarded call
was itself automatic.  With a *manual* run in flight, three automatic
requests set the pending flag, yet its completion starts zero additional
runs (the flag stays set). -/
theorem C4_counterexample :
    completeRun (requestAuto (requestAuto (requestAuto
      ⟨some false, false, 1⟩))) = ⟨none, true, 1⟩ := by
  decide

/-- C4 (amended): when the in-flight run is an automatic one, three
automatic requests fired during it are coalesced into exactly one additional
run at its completion, and that follow-up run starts no further run when it
completes. -/
theorem C4_auto_coalescing (s : SchedState) (h : s.runningAuto = some true) :
    (completeRun (requestAuto (requestAuto (requestAuto s)))).runsStarted
        = s.runsStarted + 1 ∧
    (completeRun (requestAuto (requestAuto (requestAuto s)))).runningAuto
        = some true ∧
    (completeRun (requestAuto (requestAuto (requestAuto s)))).pendingAutoRebuild
        = false ∧
    (completeRun (completeRun (requestAuto (requestAuto (requestAuto s))))).runsStarted
        = s.runsStarted + 1 ∧
    (completeRun (completeRun (requestAuto (requestAuto (requestAuto s))))).runningAuto
        = none := by
  obtain ⟨ra, p, n⟩ := s
  simp only at h
  subst h
  simp [requestAuto, completeRun]

/-- Witness for `C4_auto_coalescing` at a concrete in-flight automatic
run. -/
theorem C4_auto_coalescing_witness :
    (completeRun (requestAuto (requestAuto (requestAuto
      (⟨some true, false, 1⟩ : SchedState))))).runsStarted = 2 :=
  (C4_auto_coalescing ⟨some true, false, 1⟩ rfl).1

/-! ## C9 — manifest identity defaults -/

/-- C9 (corrected): with a valid unique id but a missing display-name field,
the display name defaults to the unique id (line 2392: `modName = modId`),
not to the folder name as claimed. -/
theorem C9_counterexample :
    readManifestIdentity "MyFolder"
        (some (some (Json.jobj [("UniqueID", Json.jstr "Author.Mod")])))
      = ("Author.Mod", "Author.Mod") ∧ ("Author.Mod" : String) ≠ "MyFolder" := by
  constructor
  · decide
  · decide

/-- C9 (amended): the unique id defaults to the folder name whenever the
unique-identifier field chain (all four accepted capitalizations) yields no
non-blank string; the display name defaults to the resulting *unique id*
whenever the `Name` field yields no non-blank string (and hence to the
folder name only when the unique id also defaulted). -/
theorem C9_identity_defaults (folderName : String) (manifest : Option (Option Json)) :
    ((∀ j, manifest = some (some j) →
        ∀ s, jsCoalesce [j.getField "UniqueID", j.getField "UniqueId",
            j.getField "uniqueID", j.getField "uniqueId"] = some (Json.jstr s) →
          jsTrim s = "") →
      (readManifestIdentity folderName manifest).1 = folderName)
  ∧ ((∀ j, manifest = some (some j) → ∀ s, j.getStr "Name" = some s → jsTrim s = "") →
      (readManifestIdentity folderName manifest).2
        = (readManifestIdentity folderName manifest).1) := by
  match manifest with
  | none => exact ⟨fun _ => rfl, fun _ => rfl⟩
  | some none => exact ⟨fun _ => rfl, fun _ => rfl⟩
  | some (some j) =>
    constructor
    · intro h
      rw [readManifestIdentity]
      split
      · have h' := h j rfl
        cases hc : jsCoalesce [j.getField "UniqueID", j.getField "UniqueId",
            j.getField "uniqueID", j.getField "uniqueId"] with
        | none => simp [hc]
        | some v =>
          cases v with
          | jstr s => simp [hc, h' s hc]
          | jnull => simp [hc]
          | jbool b => simp [hc]
          | jnum n => simp [hc]
          | jarr xs => simp [hc]
          | jobj kvs => simp [hc]
      · rfl
    · intro h
      rw [readManifestIdentity]
      split
      · have h' := h j rfl
        cases hn : j.getStr "Name" with
        | none => simp [hn]
        | some s => simp [hn, h' s hn]
      · rfl

/-- Witness for `C9_identity_defaults`: an absent manifest defaults both to
the folder name; a manifest with only a unique id defaults the name to that
unique id. -/
theorem C9_identity_defaults_witness :
    (readManifestIdentity "MyFolder" none).1 = "MyFolder" ∧
    (readManifestIdentity "MyFolder"
        (some (some (Json.jobj [("UniqueID", Json.jstr "Author.Mod")])))).2
      = (readManifestIdentity "MyFolder"
        (some (some (Json.jobj [("UniqueID", Json.jstr "Author.Mod")])))).1 := by
  constructor
  · exact (C9_identity_defaults "MyFolder" none).1 (by intro j hj; cases hj)
  · exact (C9_identity_defaults "MyFolder"
      (some (some (Json.jobj [("UniqueID", Json.jstr "Author.Mod")])))).2
      (by
        intro j hj s hs
        cases hj
        cases hs)

/-! ## C3 — token-expansion idempotence -/

/-- C3 (corrected): expansion is *not* idempotent for every table.  The
pass loop gives up after ten passes (line 2028), so a self-growing token —
here `a ↦ "{{a}}x"` — leaves an expandable remainder that the second
expansion rewrites further. -/
theorem C3_counterexample :
    expandTokensDeep
        (expandTokensDeep (lb2 ++ "a" ++ rb2) [("a", lb2 ++ "a" ++ rb2 ++ "x")])
        [("a", lb2 ++ "a" ++ rb2 ++ "x")]
      ≠ expandTokensDeep (lb2 ++ "a" ++ rb2) [("a", lb2 ++ "a" ++ rb2 ++ "x")] := by
  decide

/-- C3 (amended): expansion is idempotent whenever the first expansion
reaches a fixed point of the rewriting pass — which the ten-pass budget
guarantees except for self-growing tables — and a string that a pass leaves
unchanged (no table-matching tokens) is returned unchanged. -/
theorem C3_fixed_point_idempotent (s : String) (t : TokMap) :
    (cpPass t (expandTokensDeep s t) = expandTokensDeep s t →
      expandTokensDeep (expandTokensDeep s t) t = expandTokensDeep s t)
  ∧ (cpPass t s = s → expandTokensDeep s t = s) := by
  constructor
  · intro h
    rw [expandTokensDeep]
    split
    · rfl
    · rw [expandLoop, h]
      simp
  · intro h
    rw [expandTokensDeep]
    split
    · rfl
    · rw [expandLoop, h]
      simp

/-- Witness for `C3_fixed_point_idempotent`: a nested-token expansion that
reaches its fixed point re-expands to itself, and a token-free string is
returned unchanged. -/
theorem C3_fixed_point_idempotent_witness :
    expandTokensDeep
        (expandTokensDeep (lb2 ++ "A" ++ rb2) [("a", lb2 ++ "B" ++ rb2), ("b", "done")])
        [("a", lb2 ++ "B" ++ rb2), ("b", "done")]
      = expandTokensDeep (lb2 ++ "A" ++ rb2) [("a", lb2 ++ "B" ++ rb2), ("b", "done")] ∧
    expandTokensDeep "plain text" [("a", "b")] = "plain text" := by
  constructor
  · exact (C3_fixed_point_idempotent (lb2 ++ "A" ++ rb2)
      [("a", lb2 ++ "B" ++ rb2), ("b", "done")]).1 (by decide)
  · exact (C3_fixed_point_idempotent "plain text" [("a", "b")]).2 (by decide)

/-! ## C10 — the `"When"` entry key is never indexed -/

/-- C10 (confirmed): an entry whose key trims to `"When"` contributes
nothing — the per-entry step is the identity on the shared map, regardless
of the entry's value — so processing an entry list with such an entry equals
processing the list with it removed, the remaining entries processed
normally. -/
theorem C10_when_key_never_indexed (modId modName : String) (modI18n : TokMap)
    (baseQualifiedIds : List String) (dynamicTokens : TokMap)
    (target pfx : String) (m : IdMap) (k : String) (v : Json)
    (hk : jsTrim k = "When") (es1 es2 : List (String × Json)) :
    scanEntryStep modId modName modI18n baseQualifiedIds dynamicTokens target pfx m (k, v)
        = m ∧
    (es1 ++ (k, v) :: es2).foldl
        (scanEntryStep modId modName modI18n baseQualifiedIds dynamicTokens target pfx) m
      = (es1 ++ es2).foldl
        (scanEntryStep modId modName modI18n baseQualifiedIds dynamicTokens target pfx) m := by
  have hstep : ∀ m' : IdMap,
      scanEntryStep modId modName modI18n baseQualifiedIds dynamicTokens target pfx m' (k, v)
        = m' := by
    intro m'
    rw [scanEntryStep]
    simp [hk]
  refine ⟨hstep m, ?_⟩
  rw [List.foldl_append, List.foldl_append, List.foldl_cons, hstep]

/-- Witness for `C10_when_key_never_indexed`: a concrete `" When "` entry
between two ordinary entries is invisible to the produced map. -/
theorem C10_when_key_never_indexed_witness :
    ([("a", Json.jnull)] ++ (" When ", Json.jobj [("Name", Json.jstr "X")]) :: [("b", Json.jnull)]).foldl
        (scanEntryStep "M" "MN" [] [] [] "Data/Objects" "O") []
      = ([("a", Json.jnull)] ++ [("b", Json.jnull)]).foldl
        (scanEntryStep "M" "MN" [] [] [] "Data/Objects" "O") [] :=
  (C10_when_key_never_indexed "M" "MN" [] [] [] "Data/Objects" "O" []
    " When " (Json.jobj [("Name", Json.jstr "X")]) (by decide)
    [("a", Json.jnull)] [("b", Json.jnull)]).2

/-! ## C5 — include deferral -/

/-- C5 (confirmed): an include whose single file reference still contains
`{{...}}` after expansion with the merged dynamic/local token table is left
unchanged in the output list; no existence check, file read, or missing-file
warning happens for it; and the deferral is logged exactly when its
`modId::expandedPath` form is new, the form being cached so it is logged at
most once per rebuild. -/
theorem C5_include_deferral (fsys : FileSysM) (modDir modId : String)
    (dynamicTokens : TokMap) (caches : WarnCaches) (patch : Json) (f : String)
    (hAct : patch.getStr "Action" = some "Include")
    (hFrom : splitFromFileValue (patch.getField "FromFile") = [f])
    (hTrim : jsTrim f = f) (hNe : f ≠ "")
    (hTok : hasAnyCpToken (expandTokensDeep f
      (buildIncludeTokenMap modId dynamicTokens (patch.getField "LocalTokens"))) = true) :
    (expandIncludePatches fsys [patch] modDir modId dynamicTokens caches).expanded
        = [patch] ∧
    (∀ p, IncludeEv.checkExists p ∉
      (expandIncludePatches fsys [patch] modDir modId dynamicTokens caches).events) ∧
    (∀ p, IncludeEv.readFile p ∉
      (expandIncludePatches fsys [patch] modDir modId dynamicTokens caches).events) ∧
    (∀ p, IncludeEv.warnMissing p ∉
      (expandIncludePatches fsys [patch] modDir modId dynamicTokens caches).events) ∧
    (expandIncludePatches fsys [patch] modDir modId dynamicTokens caches).events
      = (if caches.warnedDeferredIncludes.contains
            (modId ++ "::" ++ expandTokensDeep f
              (buildIncludeTokenMap modId dynamicTokens (patch.getField "LocalTokens")))
         then []
         else [IncludeEv.logDeferred
            (modId ++ "::" ++ expandTokensDeep f
              (buildIncludeTokenMap modId dynamicTokens (patch.getField "LocalTokens")))]) ∧
    (expandIncludePatches fsys [patch] modDir modId dynamicTokens
        caches).caches.warnedDeferredIncludes.contains
      (modId ++ "::" ++ expandTokensDeep f
        (buildIncludeTokenMap modId dynamicTokens (patch.getField "LocalTokens"))) = true := by
  have hobj : isJsObjectLike patch = true := by
    cases patch with
    | jobj kvs => rfl
    | jnull => simp [Json.getStr, Json.getField] at hAct
    | jbool b => simp [Json.getStr, Json.getField] at hAct
    | jnum n => simp [Json.getStr, Json.getField] at hAct
    | jstr s => simp [Json.getStr, Json.getField] at hAct
    | jarr xs => simp [Json.getStr, Json.getField] at hAct
  rw [expandIncludePatches, List.foldl_cons, List.foldl_nil, includePatchStep]
  rw [if_neg (by simp [hobj]), if_neg (by simp [hAct]), hFrom]
  rw [if_neg (by simp), List.foldl_cons, List.foldl_nil, includeFileStep]
  rw [hTrim, if_neg hNe, if_pos hTok]
  by_cases hc : caches.warnedDeferredIncludes.contains
      (modId ++ "::" ++ expandTokensDeep f
        (buildIncludeTokenMap modId dynamicTokens (patch.getField "LocalTokens"))) = true
  · rw [if_pos hc]
    refine ⟨rfl, ?_, ?_, ?_, ?_, hc⟩
    · intro p hp
      simp at hp
    · intro p hp
      simp at hp
    · intro p hp
      simp at hp
    · rw [if_pos hc]
  · rw [if_neg hc]
    refine ⟨rfl, ?_, ?_, ?_, ?_, ?_⟩
    · intro p hp
      simp at hp
    · intro p hp
      simp at hp
    · intro p hp
      simp at hp
    · simp at hc
      simp [hc]
    · simp

/-- Witness for `C5_include_deferral`: the spec's own example — an include
of `"data/{{Color}}.json"` with `Color` in no table — is deferred once. -/
theorem C5_include_deferral_witness :
    (expandIncludePatches ⟨fun _ => none⟩
        [Json.jobj [("Action", Json.jstr "Include"),
          ("FromFile", Json.jstr ("data/" ++ lb2 ++ "Color" ++ rb2 ++ ".json"))]]
        "/mods/m" "M" [] emptyWarnCaches).expanded
      = [Json.jobj [("Action", Json.jstr "Include"),
          ("FromFile", Json.jstr ("data/" ++ lb2 ++ "Color" ++ rb2 ++ ".json"))]] ∧
    (∀ p, IncludeEv.warnMissing p ∉
      (expandIncludePatches ⟨fun _ => none⟩
        [Json.jobj [("Action", Json.jstr "Include"),
          ("FromFile", Json.jstr ("data/" ++ lb2 ++ "Color" ++ rb2 ++ ".json"))]]
        "/mods/m" "M" [] emptyWarnCaches).events) :=
  ⟨(C5_include_deferral ⟨fun _ => none⟩ "/mods/m" "M" [] emptyWarnCaches
      (Json.jobj [("Action", Json.jstr "Include"),
        ("FromFile", Json.jstr ("data/" ++ lb2 ++ "Color" ++ rb2 ++ ".json"))])
      ("data/" ++ lb2 ++ "Color" ++ rb2 ++ ".json")
      (by decide) (by rfl) (by decide) (by decide) (by decide)).1,
   (C5_include_deferral ⟨fun _ => none⟩ "/mods/m" "M" [] emptyWarnCaches
      (Json.jobj [("Action", Json.jstr "Include"),
        ("FromFile", Json.jstr ("data/" ++ lb2 ++ "Color" ++ rb2 ++ ".json"))])
      ("data/" ++ lb2 ++ "Color" ++ rb2 ++ ".json")
      (by decide) (by rfl) (by decide) (by decide) (by decide)).2.2.2.1⟩

/-! ## C6 — category-bucket ordering -/

/-- C6 (corrected): the buckets are sorted with `localeCompare`, which is
*not* code-unit order.  With entries `(O)Zebra` and `(O)apple`, the produced
`objects` bucket places `(O)apple` first (collation is case-insensitive at
the primary level), yet `(O)apple` does not precede `(O)Zebra` in code-unit
order (`Z` = 90 < `a` = 97). -/
theorem C6_counterexample :
    (buildCategories [("(O)Zebra", ⟨"M", "MN", "n"⟩), ("(O)apple", ⟨"M", "MN", "n"⟩)]).head?
        = some ("objects",
          [⟨"apple", "n", "(O)apple", "M", "MN"⟩, ⟨"Zebra", "n", "(O)Zebra", "M", "MN"⟩]) ∧
    ¬ codeUnitLe "(O)apple" "(O)Zebra" := by
  constructor
  · decide
  · decide

/-- C6 (amended): every category array of the produced index is sorted by
`qualifiedId` under the locale-collation order of
`String.prototype.localeCompare` (which agrees with code-unit order only on
identifiers where collation and code-unit order coincide, e.g. same-case
ASCII). -/
theorem C6_buckets_sorted (m : IdMap) (b : String × List IndexEntry)
    (hb : b ∈ buildCategories m) : List.Sorted entryLocLe b.2 := by
  rw [buildCategories] at hb
  obtain ⟨c, _, rfl⟩ := List.mem_map.mp hb
  exact List.sorted_insertionSort entryLocLe _

/-- Witness for `C6_buckets_sorted` on a concrete two-entry map. -/
theorem C6_buckets_sorted_witness :
    List.Sorted entryLocLe
      [⟨"apple", "n", "(O)apple", "M", "MN"⟩, ⟨"Zebra", "n", "(O)Zebra", "M", "MN"⟩] :=
  C6_buckets_sorted [("(O)Zebra", ⟨"M", "MN", "n"⟩), ("(O)apple", ⟨"M", "MN", "n"⟩)]
    ("objects",
      [⟨"apple", "n", "(O)apple", "M", "MN"⟩, ⟨"Zebra", "n", "(O)Zebra", "M", "MN"⟩])
    (by decide)

/-! ## C1 — canonicalization and the idempotent writer

`stableStringify` is invariant under its own normalization: normalizing is
idempotent because re-sorting a sorted key list is the identity. -/

theorem jnormKvs_eq_map (l : List (String × Json)) :
    jnormKvs l = l.map (fun p => (p.1, jnorm p.2)) := by
  induction l with
  | nil => rfl
  | cons hd tl ih =>
    obtain ⟨k, v⟩ := hd
    rw [jnormKvs, ih, List.map_cons]

theorem map_orderedInsert_jnorm (a : String × Json) (l : List (String × Json)) :
    (List.orderedInsert kvLocLe a l).map (fun p => (p.1, jnorm p.2))
      = List.orderedInsert kvLocLe (a.1, jnorm a.2)
          (l.map (fun p => (p.1, jnorm p.2))) := by
  induction l with
  | nil => rfl
  | cons b t ih =>
    by_cases h : kvLocLe a b
    · rw [List.orderedInsert, if_pos h, List.map_cons, List.map_cons,
        List.orderedInsert,
        if_pos (show kvLocLe (a.1, jnorm a.2) (b.1, jnorm b.2) from h)]
    · rw [List.orderedInsert, if_neg h, List.map_cons, List.map_cons,
        List.orderedInsert,
        if_neg (show ¬ kvLocLe (a.1, jnorm a.2) (b.1, jnorm b.2) from h), ih]

theorem jnormKvs_insertionSort (l : List (String × Json)) :
    jnormKvs (List.insertionSort kvLocLe l)
      = List.insertionSort kvLocLe (jnormKvs l) := by
  rw [jnormKvs_eq_map, jnormKvs_eq_map]
  induction l with
  | nil => rfl
  | cons a t ih =>
    rw [List.insertionSort, List.map_cons, List.insertionSort,
      map_orderedInsert_jnorm, ih]

mutual

theorem jnorm_idem : (j : Json) → jnorm (jnorm j) = jnorm j
  | .jnull => rfl
  | .jbool _ => rfl
  | .jnum _ => rfl
  | .jstr _ => rfl
  | .jarr xs => by rw [jnorm, jnorm, jnormList_idem xs]
  | .jobj kvs => by
    rw [jnorm, jnorm, jnormKvs_insertionSort, jnormKvs_idem kvs,
      List.Sorted.insertionSort_eq (List.sorted_insertionSort kvLocLe (jnormKvs kvs))]

theorem jnormList_idem : (xs : List Json) → jnormList (jnormList xs) = jnormList xs
  | [] => rfl
  | x :: xs => by rw [jnormList, jnormList, jnorm_idem x, jnormList_idem xs]

theorem jnormKvs_idem : (kvs : List (String × Json)) → jnormKvs (jnormKvs kvs) = jnormKvs kvs
  | [] => rfl
  | (k, v) :: kvs => by rw [jnormKvs, jnormKvs, jnorm_idem v, jnormKvs_idem kvs]

end

theorem stableStringify_jnorm (j : Json) :
    stableStringify (jnorm j) = stableStringify j := by
  rw [stableStringify, stableStringify, jnorm_idem]

/-- After a write, the on-disk state reads back as the canonical text. -/
theorem write_after_write (j : Json) :
    writeFileIfChangedJson (.onDisk (stableStringify j) (parsedAfterWrite j)) j
      = (false, .onDisk (stableStringify j) (parsedAfterWrite j)) := by
  have hss : ∀ kvsOrArr : Json, jnorm j = kvsOrArr →
      stableStringify kvsOrArr = stableStringify j := by
    intro v hv
    rw [← hv, stableStringify_jnorm]
  cases hn : jnorm j with
  | jobj kvs =>
    simp only [writeFileIfChangedJson, tryReadJsoncObject, parsedAfterWrite, hn]
    rw [if_pos (hss (Json.jobj kvs) hn)]
  | jarr xs =>
    simp only [writeFileIfChangedJson, tryReadJsoncObject, parsedAfterWrite, hn]
    rw [if_pos (hss (Json.jarr xs) hn)]
  | jnull =>
    simp only [writeFileIfChangedJson, tryReadJsoncObject, parsedAfterWrite, hn, if_pos rfl]
    rw [if_pos trivial]
  | jbool b =>
    simp only [writeFileIfChangedJson, tryReadJsoncObject, parsedAfterWrite, hn, if_pos rfl]
    rw [if_pos trivial]
  | jnum n =>
    simp only [writeFileIfChangedJson, tryReadJsoncObject, parsedAfterWrite, hn, if_pos rfl]
    rw [if_pos trivial]
  | jstr s =>
    simp only [writeFileIfChangedJson, tryReadJsoncObject, parsedAfterWrite, hn, if_pos rfl]
    rw [if_pos trivial]

/-- C1 (confirmed): the writer writes only when the file is missing or
unreadable, or the raw text differs from the canonical text (unparseable
file), or the canonicalized existing object differs from the canonical text;
and a second call for the same index object on the state the first call
leaves behind reports `changed = false` and leaves the state untouched. -/
theorem C1_idempotent_writer (st : FileState) (j : Json) :
    ((writeFileIfChangedJson st j).1 = true →
      st = FileState.missing ∨ st = FileState.unreadable ∨
      (∃ raw, st = FileState.onDisk raw none ∧ raw ≠ stableStringify j) ∨
      (∃ raw p, st = FileState.onDisk raw (some p) ∧
        stableStringify p ≠ stableStringify j))
  ∧ writeFileIfChangedJson (writeFileIfChangedJson st j).2 j
      = (false, (writeFileIfChangedJson st j).2) := by
  constructor
  · intro h
    match st with
    | .missing => exact Or.inl rfl
    | .unreadable => exact Or.inr (Or.inl rfl)
    | .onDisk raw none =>
      refine Or.inr (Or.inr (Or.inl ⟨raw, rfl, ?_⟩))
      intro hraw
      simp only [writeFileIfChangedJson, tryReadJsoncObject] at h
      rw [if_pos hraw] at h
      exact Bool.false_ne_true h
    | .onDisk raw (some p) =>
      refine Or.inr (Or.inr (Or.inr ⟨raw, p, rfl, ?_⟩))
      intro hp
      simp only [writeFileIfChangedJson, tryReadJsoncObject] at h
      rw [if_pos hp] at h
      exact Bool.false_ne_true h
  · match st with
    | .missing => exact write_after_write j
    | .unreadable => exact write_after_write j
    | .onDisk raw none =>
      by_cases hraw : raw = stableStringify j
      · conv_lhs =>
          rw [writeFileIfChangedJson]
        simp only [tryReadJsoncObject]
        rw [if_pos hraw]
        simp only [writeFileIfChangedJson, tryReadJsoncObject]
        rw [if_pos hraw]
      · simp only [writeFileIfChangedJson, tryReadJsoncObject]
        rw [if_neg hraw]
        exact write_after_write j
    | .onDisk raw (some p) =>
      by_cases hp : stableStringify p = stableStringify j
      · conv_lhs =>
          rw [writeFileIfChangedJson]
        simp only [tryReadJsoncObject]
        rw [if_pos hp]
        simp only [writeFileIfChangedJson, tryReadJsoncObject]
        rw [if_pos hp]
      · simp only [writeFileIfChangedJson, tryReadJsoncObject]
        rw [if_neg hp]
        exact write_after_write j

/-- Witness for `C1_idempotent_writer`: a first write to a missing file
happens (and the claim's only-when condition holds there); the second call
for the same object reports no change. -/
theorem C1_idempotent_writer_witness :
    (writeFileIfChangedJson FileState.missing
        (Json.jobj [("b", Json.jnum 1), ("a", Json.jstr "x")])).1 = true ∧
    (FileState.missing = FileState.missing ∨
      FileState.missing = FileState.unreadable ∨
      (∃ raw, FileState.missing = FileState.onDisk raw none ∧
        raw ≠ stableStringify (Json.jobj [("b", Json.jnum 1), ("a", Json.jstr "x")])) ∨
      (∃ raw p, FileState.missing = FileState.onDisk raw (some p) ∧
        stableStringify p ≠ stableStringify (Json.jobj [("b", Json.jnum 1), ("a", Json.jstr "x")]))) ∧
    writeFileIfChangedJson
        (writeFileIfChangedJson FileState.missing
          (Json.jobj [("b", Json.jnum 1), ("a", Json.jstr "x")])).2
        (Json.jobj [("b", Json.jnum 1), ("a", Json.jstr "x")])
      = (false, (writeFileIfChangedJson FileState.missing
          (Json.jobj [("b", Json.jnum 1), ("a", Json.jstr "x")])).2) :=
  ⟨rfl,
   (C1_idempotent_writer FileState.missing
     (Json.jobj [("b", Json.jnum 1), ("a", Json.jstr "x")])).1 rfl,
   (C1_idempotent_writer FileState.missing
     (Json.jobj [("b", Json.jnum 1), ("a", Json.jstr "x")])).2⟩

/-! ## C2 — baseline exclusion

Every write into the shared identifier map — the entry-key path, the
objects-alias path, and the reference scanner — is guarded by a baseline
check, so no baseline identifier ever enters the map, and hence no category
array of the produced index ever carries one. -/

theorem mapHas_append_one (m : IdMap) (k q : String) (v : InstalledItemInfo)
    (hq : q ≠ k) (hm : mapHas m q = false) :
    mapHas (m ++ [(k, v)]) q = false := by
  rw [mapHas] at hm ⊢
  rw [List.any_append, hm]
  simp [Ne.symm hq]

theorem mapHas_setNew (m : IdMap) (k q : String) (v : InstalledItemInfo)
    (hq : q ≠ k) (hm : mapHas m q = false) :
    mapHas (mapSetNew m k v) q = false := by
  rw [mapSetNew]
  split
  · exact hm
  · exact mapHas_append_one m k q v hq hm

/-- A fold preserves any property its step preserves. -/
theorem foldl_preserves {α β : Type} (P : α → Prop) (f : α → β → α)
    (hf : ∀ a b, P a → P (f a b)) :
    ∀ (l : List β) (a : α), P a → P (l.foldl f a) := by
  intro l
  induction l with
  | nil => intro a ha; exact ha
  | cons b t ih => intro a ha; exact ih (f a b) (hf a b ha)

theorem addReferenceStep_preserves (c1 c2 : String) (km : KnownModsMap)
    (base : List String) (q : String) (hq : base.contains q = true)
    (m : IdMap) (x : String) (hm : mapHas m q = false) :
    mapHas (addReferenceStep c1 c2 km base m x) q = false := by
  rw [addReferenceStep]
  by_cases hb : base.contains x = true
  · rw [if_pos hb]
    exact hm
  rw [if_neg hb]
  have hqx : q ≠ x := by
    intro he
    rw [← he] at hb
    exact hb hq
  split
  · exact hm
  split
  · exact hm
  split
  · exact hm
  exact mapHas_append_one m x q _ hqx hm

theorem scanEntryStep_preserves (modId modName : String) (modI18n : TokMap)
    (base : List String) (dyn : TokMap) (target pfx : String)
    (q : String) (hq : base.contains q = true)
    (m : IdMap) (kv : String × Json) (hm : mapHas m q = false) :
    mapHas (scanEntryStep modId modName modI18n base dyn target pfx m kv) q = false := by
  rw [scanEntryStep]
  split
  · exact hm
  split
  · exact hm
  by_cases hb1 : base.contains
      ("(" ++ pfx ++ ")" ++
        replaceModidTokens (expandDynamicTokens (jsTrim kv.1) dyn) modId) = true
  · rw [if_pos hb1]
    exact hm
  rw [if_neg hb1]
  have hm1 : ∀ v, mapHas (mapSetNew m
      ("(" ++ pfx ++ ")" ++
        replaceModidTokens (expandDynamicTokens (jsTrim kv.1) dyn) modId) v) q = false := by
    intro v
    refine mapHas_setNew m _ q v ?_ hm
    intro he
    rw [← he] at hb1
    exact hb1 hq
  split
  all_goals try dsimp only
  all_goals
    split
    · split
      · try dsimp only
        split
        · try dsimp only
          split
          · exact hm1 _
          · rename_i hb2
            refine mapHas_setNew _ _ q _ ?_ (hm1 _)
            intro he
            rw [← he] at hb2
            exact hb2 hq
        · exact hm1 _
      · exact hm1 _
    · exact hm1 _

theorem scanPatchStep_preserves (modId modName : String) (modI18n : TokMap)
    (base : List String) (km : KnownModsMap) (dyn : TokMap)
    (q : String) (hq : base.contains q = true)
    (m : IdMap) (patch : Json) (hm : mapHas m q = false) :
    mapHas (scanPatchStep modId modName modI18n base km dyn m patch) q = false := by
  rw [scanPatchStep]
  split
  · exact hm
  split
  · exact foldl_preserves (fun mm => mapHas mm q = false) _
      (fun mm x hmm => addReferenceStep_preserves modId modName km base q hq mm x hmm)
      _ m hm
  split
  · exact hm
  split
  · exact hm
  split
  · exact hm
  split
  · exact hm
  split
  · split
    · exact foldl_preserves (fun mm => mapHas mm q = false) _
        (fun mm kv hmm =>
          scanEntryStep_preserves modId modName modI18n base dyn _ _ q hq mm kv hmm)
        _ m hm
    · exact hm
  · exact hm

theorem scanChanges_preserves (modId modName : String) (modI18n : TokMap)
    (base : List String) (km : KnownModsMap) (dyn : TokMap)
    (q : String) (hq : base.contains q = true)
    (changes : List Json) (m : IdMap) (hm : mapHas m q = false) :
    mapHas (scanChanges modId modName modI18n base km dyn changes m) q = false :=
  foldl_preserves (fun mm => mapHas mm q = false) _
    (fun mm patch hmm =>
      scanPatchStep_preserves modId modName modI18n base km dyn q hq mm patch hmm)
    changes m hm

theorem scanContentDoc_preserves (fsys : FileSysM) (fileBase : String) (doc : Json)
    (modDir modId modName : String) (modI18n : TokMap) (base : List String)
    (km : KnownModsMap) (modDyn : TokMap) (caches : WarnCaches)
    (q : String) (hq : base.contains q = true)
    (m : IdMap) (hm : mapHas m q = false) :
    mapHas (scanContentDoc fsys fileBase doc modDir modId modName modI18n base km
      modDyn m caches).1 q = false := by
  rw [scanContentDoc]
  split
  · exact hm
  dsimp only
  split
  · exact hm
  split
  · exact scanChanges_preserves modId modName modI18n base km _ q hq _ m hm
  · exact hm

theorem runScanJobs_preserves (fsys : FileSysM) (base : List String)
    (km : KnownModsMap) (jobs : List ScanJob) (m : IdMap) (caches : WarnCaches)
    (q : String) (hq : base.contains q = true) (hm : mapHas m q = false) :
    mapHas (runScanJobs fsys base km jobs m caches).1 q = false := by
  rw [runScanJobs]
  exact foldl_preserves (fun acc : IdMap × WarnCaches => mapHas acc.1 q = false) _
    (fun acc job hacc =>
      scanContentDoc_preserves fsys job.fileBase job.doc job.modDir job.modId
        job.modName job.modI18n base km job.modDynamicTokens acc.2 q hq acc.1 hacc)
    jobs (m, caches) hm

theorem rawBucket_qid_has (m : IdMap) (cat : String) (e : IndexEntry)
    (he : e ∈ rawBucket m cat) : mapHas m e.qualifiedId = true := by
  rw [rawBucket] at he
  obtain ⟨pr, hpr, hif⟩ := List.mem_filterMap.mp he
  obtain ⟨p, hp, hpe⟩ := List.mem_filterMap.mp hpr
  have hqid : pr.2.qualifiedId = p.1 := by
    rw [entryOfPair] at hpe
    cases hparse : parseQid p.1 with
    | none => rw [hparse] at hpe; cases hpe
    | some pi =>
      rw [hparse] at hpe
      cases hpe
      rfl
  have hepr : e = pr.2 := by
    by_cases hcat : pr.1 = cat
    · rw [if_pos hcat] at hif
      cases hif
      rfl
    · rw [if_neg hcat] at hif
      cases hif
  rw [hepr, hqid, mapHas]
  exact List.any_of_mem hp (by simp)

/-- C2 (confirmed): starting from a map free of baseline identifiers (the
rebuild starts from an empty one), scanning any sequence of package
documents — entry keys, objects aliases and reference mentions included —
never puts a baseline identifier into the shared map, and no category array
of the index built from it carries a baseline identifier. -/
theorem C2_baseline_exclusion (fsys : FileSysM) (baseQualifiedIds : List String)
    (knownMods : KnownModsMap) (jobs : List ScanJob) (m0 : IdMap)
    (caches : WarnCaches)
    (h0 : ∀ q, baseQualifiedIds.contains q = true → mapHas m0 q = false) :
    (∀ q, baseQualifiedIds.contains q = true →
      mapHas (runScanJobs fsys baseQualifiedIds knownMods jobs m0 caches).1 q = false) ∧
    (∀ q, baseQualifiedIds.contains q = true →
      ∀ b ∈ buildCategories (runScanJobs fsys baseQualifiedIds knownMods jobs m0 caches).1,
        ∀ e ∈ b.2, e.qualifiedId ≠ q) := by
  have h1 : ∀ q, baseQualifiedIds.contains q = true →
      mapHas (runScanJobs fsys baseQualifiedIds knownMods jobs m0 caches).1 q = false :=
    fun q hq =>
      runScanJobs_preserves fsys baseQualifiedIds knownMods jobs m0 caches q hq (h0 q hq)
  refine ⟨h1, ?_⟩
  intro q hq b hb e he heq
  rw [buildCategories] at hb
  obtain ⟨c, _, rfl⟩ := List.mem_map.mp hb
  have hmem : e ∈ rawBucket (runScanJobs fsys baseQualifiedIds knownMods jobs m0 caches).1 c :=
    (List.Perm.mem_iff (List.perm_insertionSort entryLocLe _)).mp he
  have := rawBucket_qid_has _ c e hmem
  rw [heq, h1 q hq] at this
  exact Bool.false_ne_true this

/-- Witness for `C2_baseline_exclusion`: a package that redefines the
baseline identifier `(O)item1` does not re-emit it. -/
theorem C2_baseline_exclusion_witness :
    mapHas (runScanJobs ⟨fun _ => none⟩ ["(O)item1"] []
      [⟨"content.json",
        Json.jobj [("Changes", Json.jarr [Json.jobj [
          ("Action", Json.jstr "EditData"),
          ("Target", Json.jstr "Data/Objects"),
          ("Entries", Json.jobj [("item1", Json.jnull)])]])],
        "/mods/m", "M", "MN", [], []⟩] [] emptyWarnCaches).1 "(O)item1" = false :=
  (C2_baseline_exclusion ⟨fun _ => none⟩ ["(O)item1"] []
    [⟨"content.json",
      Json.jobj [("Changes", Json.jarr [Json.jobj [
        ("Action", Json.jstr "EditData"),
        ("Target", Json.jstr "Data/Objects"),
        ("Entries", Json.jobj [("item1", Json.jnull)])]])],
      "/mods/m", "M", "MN", [], []⟩] [] emptyWarnCaches
    (fun _ _ => rfl)).1 "(O)item1" (by decide)

/-! ## C7 — reference-scanner registration -/

theorem breakAtChar_append_eq (b : Char) (l : List Char) :
    (breakAtChar b l).1 ++ (breakAtChar b l).2 = l := by
  induction l with
  | nil => rfl
  | cons c cs ih =>
    rw [breakAtChar]
    by_cases h : c = b
    · rw [if_pos h]
      rfl
    · rw [if_neg h]
      simpa using ih

theorem breakAtChar_fst_not (b : Char) (l : List Char) :
    ∀ c ∈ (breakAtChar b l).1, c ≠ b := by
  induction l with
  | nil => intro c hc; cases hc
  | cons c cs ih =>
    rw [breakAtChar]
    by_cases h : c = b
    · rw [if_pos h]
      intro x hx
      cases hx
    · rw [if_neg h]
      intro x hx
      rcases List.mem_cons.mp hx with rfl | hx
      · exact h
      · exact ih x hx

theorem breakAtChar_snd_head (b : Char) (l : List Char) :
    ∀ c cs, (breakAtChar b l).2 = c :: cs → c = b := by
  induction l with
  | nil => intro c cs h; cases h
  | cons x xs ih =>
    rw [breakAtChar]
    by_cases h : x = b
    · rw [if_pos h]
      intro c cs hc
      cases hc
      exact h
    · rw [if_neg h]
      simpa using ih

theorem mapHas_append_self (m : IdMap) (k : String) (v : InstalledItemInfo) :
    mapHas (m ++ [(k, v)]) k = true := by
  rw [mapHas, List.any_append]
  simp

theorem find?_none_of_has_false (m : IdMap) (q : String) (hm : mapHas m q = false) :
    List.find? (fun p => p.1 = q) m = none := by
  rw [List.find?_eq_none]
  intro x hx hpx
  rw [mapHas] at hm
  rw [List.any_eq_false] at hm
  exact hm x hx hpx

theorem mapGet_append_left (m l : IdMap) (q : String) (hq : mapHas m q = true) :
    mapGet (m ++ l) q = mapGet m q := by
  rw [mapGet, mapGet, List.find?_append]
  rw [mapHas, List.any_eq_true] at hq
  obtain ⟨x, hx, hpx⟩ := hq
  cases hf : List.find? (fun p => p.1 = q) m with
  | none =>
    exfalso
    rw [List.find?_eq_none] at hf
    exact hf x hx hpx
  | some v => rfl

theorem mapGet_append_self (m : IdMap) (k : String) (v : InstalledItemInfo)
    (hm : mapHas m k = false) :
    mapGet (m ++ [(k, v)]) k = some v := by
  rw [mapGet, List.find?_append, find?_none_of_has_false m k hm]
  simp [List.find?]

theorem addReferenceStep_get_stable (c1 c2 : String) (km : KnownModsMap)
    (base : List String) (m : IdMap) (x q : String) (hq : mapHas m q = true) :
    mapGet (addReferenceStep c1 c2 km base m x) q = mapGet m q ∧
    mapHas (addReferenceStep c1 c2 km base m x) q = true := by
  rw [addReferenceStep]
  split
  · exact ⟨rfl, hq⟩
  split
  · exact ⟨rfl, hq⟩
  split
  · exact ⟨rfl, hq⟩
  split
  · exact ⟨rfl, hq⟩
  refine ⟨mapGet_append_left m _ q hq, ?_⟩
  rw [mapHas, List.any_append]
  rw [mapHas] at hq
  rw [hq]
  rfl

theorem addReferenceStep_has_false (c1 c2 : String) (km : KnownModsMap)
    (base : List String) (m : IdMap) (x q : String)
    (hqx : q ≠ x) (hm : mapHas m q = false) :
    mapHas (addReferenceStep c1 c2 km base m x) q = false := by
  rw [addReferenceStep]
  split
  · exact hm
  split
  · exact hm
  split
  · exact hm
  split
  · exact hm
  exact mapHas_append_one m x q _ hqx hm

theorem addReference_fold_stable (c1 c2 : String) (km : KnownModsMap)
    (base : List String) :
    ∀ (found : List String) (m : IdMap) (q : String), mapHas m q = true →
      mapGet (List.foldl (addReferenceStep c1 c2 km base) m found) q = mapGet m q := by
  intro found
  induction found with
  | nil =>
    intro m q _
    rfl
  | cons x xs ih =>
    intro m q hq
    rw [List.foldl_cons]
    have hstep := addReferenceStep_get_stable c1 c2 km base m x q hq
    rw [ih (addReferenceStep c1 c2 km base m x) q hstep.2, hstep.1]

theorem addReference_fold_get (modId modName : String) (km : KnownModsMap)
    (base : List String) :
    ∀ (found : List String) (m : IdMap) (qid pfx inner : String),
      found.Nodup → qid ∈ found → parseQid qid = some (pfx, inner) →
      (PREFIX_TO_CATEGORY_KEY pfx).isSome = true →
      base.contains qid = false → mapHas m qid = false →
      mapGet (addReferenceQualifiedIdsToIndex found modId modName km base m) qid
        = some ⟨(resolveOwningModForInnerId inner modId modName km).1,
                (resolveOwningModForInnerId inner modId modName km).2, inner⟩ := by
  intro found
  induction found with
  | nil =>
    intro m qid pfx inner _ hq
    cases hq
  | cons x xs ih =>
    intro m qid pfx inner hnd hq hp hpk hbase hm
    rw [List.nodup_cons] at hnd
    rw [addReferenceQualifiedIdsToIndex, List.foldl_cons]
    rcases List.mem_cons.mp hq with heq | hmem
    · subst heq
      obtain ⟨cat, hcat⟩ := Option.isSome_iff_exists.mp hpk
      have hstep : addReferenceStep modId modName km base m qid
          = m ++ [(qid, ⟨(resolveOwningModForInnerId inner modId modName km).1,
                         (resolveOwningModForInnerId inner modId modName km).2, inner⟩)] := by
        rw [addReferenceStep,
          if_neg (by rw [hbase]; exact Bool.false_ne_true),
          if_neg (by rw [hm]; exact Bool.false_ne_true), hp]
        simp only [hcat]
      rw [hstep]
      rw [addReference_fold_stable modId modName km base xs
        (m ++ [(qid, ⟨(resolveOwningModForInnerId inner modId modName km).1,
                      (resolveOwningModForInnerId inner modId modName km).2, inner⟩)])
        qid (mapHas_append_self m qid _)]
      exact mapGet_append_self m qid _ hm
    · have hqx : qid ≠ x := fun he => hnd.1 (he ▸ hmem)
      have hm' : mapHas (addReferenceStep modId modName km base m x) qid = false :=
        addReferenceStep_has_false modId modName km base m x qid hqx hm
      exact ih (addReferenceStep modId modName km base m x) qid pfx inner hnd.2 hmem
        hp hpk hbase hm'

theorem ownerSpec_of_resolve (inner curId curName : String) (km : KnownModsMap) :
    ownerSpec inner curId curName km
      (resolveOwningModForInnerId inner curId curName km) := by
  rw [resolveOwningModForInnerId]
  split
  · exact Or.inr (Or.inr rfl)
  rename_i hne
  dsimp only
  cases hidx : idxOfUnderscore (jsTrim inner).data with
  | none =>
    simp only [hidx]
    cases hf : List.find? (fun p => eqOrDotPrefixed (jsTrim inner) p.1) km with
    | none =>
      simp only [hf]
      exact Or.inr (Or.inr rfl)
    | some pr =>
      simp only [hf]
      exact Or.inr (Or.inl ⟨by simpa using List.mem_of_find?_eq_some hf,
        by simpa using List.find?_some hf⟩)
  | some idx =>
    simp only [hidx]
    by_cases hpos : 0 < idx
    · rw [if_pos hpos]
      cases hg : kmGet km (String.mk ((jsTrim inner).data.take idx)) with
      | none =>
        simp only [hg]
        cases hf : List.find? (fun p => eqOrDotPrefixed (jsTrim inner) p.1) km with
        | none =>
          simp only [hf]
          exact Or.inr (Or.inr rfl)
        | some pr =>
          simp only [hf]
          exact Or.inr (Or.inl ⟨by simpa using List.mem_of_find?_eq_some hf,
            by simpa using List.find?_some hf⟩)
      | some knownName =>
        simp only [hg]
        refine Or.inl ?_
        have hsplit : ∃ c cs, (breakAtChar '_' (jsTrim inner).data).2 = c :: cs := by
          rw [idxOfUnderscore] at hidx
          cases hsnd : (breakAtChar '_' (jsTrim inner).data).2 with
          | nil =>
            rw [hsnd] at hidx
            simp at hidx
          | cons c' cs' => exact ⟨c', cs', rfl⟩
        obtain ⟨c, cs, hsnd⟩ := hsplit
        have hcu : c = '_' := breakAtChar_snd_head '_' (jsTrim inner).data c cs hsnd
        subst hcu
        have hidx' : idx = (breakAtChar '_' (jsTrim inner).data).1.length := by
          rw [idxOfUnderscore, hsnd] at hidx
          simp at hidx
          exact hidx.symm
        have hdec : (breakAtChar '_' (jsTrim inner).data).1 ++ '_' :: cs
            = (jsTrim inner).data := by
          rw [← hsnd]
          exact breakAtChar_append_eq '_' (jsTrim inner).data
        have htake : (jsTrim inner).data.take idx
            = (breakAtChar '_' (jsTrim inner).data).1 := by
          rw [hidx']
          set pre := (breakAtChar '_' (jsTrim inner).data).1 with hpre
          rw [← hdec]
          exact List.take_left _ _
        refine ⟨String.mk cs, ?_, ?_, ?_, ?_⟩
        · show jsTrim inner
            = String.mk ((jsTrim inner).data.take idx) ++ "_" ++ String.mk cs
          rw [htake]
          have : String.mk ((breakAtChar '_' (jsTrim inner).data).1) ++ "_" ++ String.mk cs
              = String.mk ((breakAtChar '_' (jsTrim inner).data).1 ++ '_' :: cs) := by
            show String.mk ((breakAtChar '_' (jsTrim inner).data).1 ++ '_' :: [] ++ cs)
              = String.mk ((breakAtChar '_' (jsTrim inner).data).1 ++ '_' :: cs)
            simp
          rw [this, hdec]
        · rw [htake]
          intro hc
          exact breakAtChar_fst_not '_' (jsTrim inner).data '_' hc rfl
        · rw [htake]
          intro hc
          have : (breakAtChar '_' (jsTrim inner).data).1 = [] := by
            have := congrArg String.data hc
            simpa using this
          rw [hidx', this] at hpos
          cases hpos
        · exact hg
    · rw [if_neg hpos]
      cases hf : List.find? (fun p => eqOrDotPrefixed (jsTrim inner) p.1) km with
      | none =>
        simp only [hf]
        exact Or.inr (Or.inr rfl)
      | some pr =>
        simp only [hf]
        exact Or.inr (Or.inl ⟨by simpa using List.mem_of_find?_eq_some hf,
          by simpa using List.find?_some hf⟩)

/-- C7 (corrected): a qualified-identifier pattern match with an
*unrecognized* uppercase code is never registered: `(TR)ring` (trinkets)
matches the pattern, is no baseline identifier, and the map is empty, yet
the reference scanner registers nothing. -/
theorem C7_counterexample :
    extractQualifiedIdsFromText "sells (TR)ring today" "M" [] = ["(TR)ring"] ∧
    addReferenceQualifiedIdsToIndex ["(TR)ring"] "M" "MN" [] [] [] = [] := by
  constructor
  · decide
  · decide

/-- C7 (amended): every pattern match in a scanned string leaf whose
category code is one of the nine recognized prefixes, and which is neither a
baseline identifier nor already present, is registered with the raw inner id
as display name and ownership inferred by (a) the first-underscore split
matching a known package id, else (b) equality with or dot-prefixing by a
known package id, else (c) the scanning package. -/
theorem C7_reference_registration (found : List String) (modId modName : String)
    (knownMods : KnownModsMap) (baseQualifiedIds : List String) (m : IdMap)
    (hnd : found.Nodup) (qid : String) (hq : qid ∈ found)
    (pfx inner : String) (hp : parseQid qid = some (pfx, inner))
    (hpk : (PREFIX_TO_CATEGORY_KEY pfx).isSome = true)
    (hbase : baseQualifiedIds.contains qid = false)
    (hm : mapHas m qid = false) :
    mapGet (addReferenceQualifiedIdsToIndex found modId modName knownMods
        baseQualifiedIds m) qid
      = some ⟨(resolveOwningModForInnerId inner modId modName knownMods).1,
              (resolveOwningModForInnerId inner modId modName knownMods).2, inner⟩ ∧
    ownerSpec inner modId modName knownMods
      (resolveOwningModForInnerId inner modId modName knownMods) :=
  ⟨addReference_fold_get modId modName knownMods baseQualifiedIds found m qid pfx inner
     hnd hq hp hpk hbase hm,
   ownerSpec_of_resolve inner modId modName knownMods⟩

/-- Witness for `C7_reference_registration`: `(O)KnownMod_thing` mentioned
in a shop is registered under the known package `KnownMod` with the raw
inner id as display name. -/
theorem C7_reference_registration_witness :
    mapGet (addReferenceQualifiedIdsToIndex ["(O)KnownMod_thing"] "Cur" "CurN"
        [("KnownMod", "KM")] [] []) "(O)KnownMod_thing"
      = some ⟨(resolveOwningModForInnerId "KnownMod_thing" "Cur" "CurN"
                [("KnownMod", "KM")]).1,
              (resolveOwningModForInnerId "KnownMod_thing" "Cur" "CurN"
                [("KnownMod", "KM")]).2, "KnownMod_thing"⟩ :=
  (C7_reference_registration ["(O)KnownMod_thing"] "Cur" "CurN" [("KnownMod", "KM")]
    [] [] (by decide) "(O)KnownMod_thing" (by decide) "O" "KnownMod_thing"
    (by decide) (by decide) (by decide) (by decide)).1

/-! ## C8 — i18n placeholder resolution -/

theorem breakAtBrace_no_brace (w : List Char) (r : List Char)
    (hw : ∀ c ∈ w, c ≠ lbrace ∧ c ≠ rbrace) :
    breakAtBrace (w ++ rbrace :: r) = (w, rbrace :: r) := by
  induction w with
  | nil => rfl
  | cons c cs ih =>
    rw [List.cons_append, breakAtBrace]
    have hc := hw c (List.mem_cons_self c cs)
    rw [if_neg (by
      intro hor
      cases hor with
      | inl h => exact hc.1 h
      | inr h => exact hc.2 h)]
    rw [ih (fun x hx => hw x (List.mem_cons_of_mem c hx))]

theorem i18nScan_nil (t : TokMap) (fuel : Nat) : i18nScan t fuel [] = [] := by
  cases fuel with
  | zero => rfl
  | succ n => rfl

theorem i18nScan_no_lbrace (t : TokMap) :
    ∀ (fuel : Nat) (l : List Char), (∀ c ∈ l, c ≠ lbrace) →
      i18nScan t fuel l = l := by
  intro fuel
  induction fuel with
  | zero =>
    intro l _
    rfl
  | succ n ih =>
    intro l hl
    match l with
    | [] => rfl
    | c :: cs =>
      rw [i18nScan]
      rw [if_neg (by
        intro hc
        exact hl c (List.mem_cons_self c cs) hc.1)]
      rw [ih cs (fun x hx => hl x (List.mem_cons_of_mem c hx))]

theorem mk_data_eq (k : String) : String.mk k.data = k := by
  cases k
  rfl

theorem data_ne_nil_of_ne_empty (k : String) (h : k ≠ "") : k.data ≠ [] := by
  intro hd
  apply h
  rw [← mk_data_eq k, hd]

theorem i18nTail_placeholder (k : String) (hne : k ≠ "")
    (hb : ∀ c ∈ k.data, c ≠ lbrace ∧ c ≠ rbrace) :
    i18nTail ('i' :: '1' :: '8' :: 'n' :: ':' :: (k.data ++ [rbrace, rbrace]))
      = some (k.data, []) := by
  have hbreak : breakAtBrace (k.data ++ [rbrace, rbrace]) = (k.data, [rbrace, rbrace]) :=
    breakAtBrace_no_brace k.data [rbrace] hb
  rw [i18nTail]
  have h1 : dropWsList ('i' :: '1' :: '8' :: 'n' :: ':' :: (k.data ++ [rbrace, rbrace]))
      = 'i' :: '1' :: '8' :: 'n' :: ':' :: (k.data ++ [rbrace, rbrace]) := by
    rw [dropWsList, List.dropWhile_cons, if_neg (by decide)]
  rw [h1]
  have h2 : stripCI "i18n".data ('i' :: '1' :: '8' :: 'n' :: ':' :: (k.data ++ [rbrace, rbrace]))
      = some (':' :: (k.data ++ [rbrace, rbrace])) := by
    rw [stripCI, if_pos (by decide), stripCI, if_pos (by decide),
      stripCI, if_pos (by decide), stripCI, if_pos (by decide), stripCI]
  have h3 : dropWsList (':' :: (k.data ++ [rbrace, rbrace]))
      = ':' :: (k.data ++ [rbrace, rbrace]) := by
    rw [dropWsList, List.dropWhile_cons, if_neg (by decide)]
  simp only [h2, h3, hbreak]
  rw [if_pos trivial]
  rw [if_pos ⟨trivial, trivial, data_ne_nil_of_ne_empty k hne⟩]

theorem i18nPass_placeholder (t : TokMap) (k : String)
    (hk : jsTrim k = k) (hne : k ≠ "")
    (hb : ∀ c ∈ k.data, c ≠ lbrace ∧ c ≠ rbrace)
    (hmiss : tmGet t k = none) :
    i18nPass t (lb2 ++ "i18n:" ++ k ++ rb2) = k := by
  have hdata : (lb2 ++ "i18n:" ++ k ++ rb2).data
      = lbrace :: lbrace :: 'i' :: '1' :: '8' :: 'n' :: ':' :: (k.data ++ [rbrace, rbrace]) := by
    rw [String.data_append, String.data_append, String.data_append]
    show ([lbrace, lbrace] ++ ['i', '1', '8', 'n', ':']) ++ k.data ++ [rbrace, rbrace] = _
    simp
  have hrep : i18nReplacer t k.data = some k.data := by
    rw [i18nReplacer]
    rw [mk_data_eq k, hk]
    rw [if_neg hne, hmiss]
  rw [i18nPass, hdata]
  rw [i18nScan]
  rw [if_pos ⟨rfl, rfl⟩]
  simp only [List.tail_cons, i18nTail_placeholder k hne hb, hrep, i18nScan_nil,
    List.append_nil]

/-- C8 (corrected): with an *empty* localization table, the helper returns
the input unchanged — the raw `{{i18n:foo}}` placeholder is left in the
output instead of being replaced by the bare key. -/
theorem C8_counterexample :
    resolveI18nTokensInString (lb2 ++ "i18n:" ++ "foo" ++ rb2) []
        = lb2 ++ "i18n:" ++ "foo" ++ rb2 ∧
    lb2 ++ "i18n:" ++ "foo" ++ rb2 ≠ "foo" := by
  constructor
  · rfl
  · decide

/-- C8 (amended): provided the supplied localization table is non-empty, an
`{{i18n:key}}` placeholder whose (trimmed, non-blank, brace-free) key has no
match in the table is replaced by the bare key text rather than left as a
raw placeholder.  (With an empty table the helper returns its input
untouched.) -/
theorem C8_missing_key_bare (k : String) (t : TokMap)
    (ht : tmIsEmpty t = false) (hk : jsTrim k = k) (hne : k ≠ "")
    (hb : ∀ c ∈ k.data, c ≠ lbrace ∧ c ≠ rbrace) (hmiss : tmGet t k = none) :
    resolveI18nTokensInString (lb2 ++ "i18n:" ++ k ++ rb2) t = k := by
  rw [resolveI18nTokensInString,
    if_neg (by rw [ht]; exact Bool.false_ne_true)]
  rw [show (10 : Nat) = 9 + 1 from rfl, i18nLoop]
  rw [i18nPass_placeholder t k hk hne hb hmiss]
  have hne2 : ¬ k = lb2 ++ "i18n:" ++ k ++ rb2 := by
    intro he
    have hlen := congrArg (fun s : String => s.data.length) he
    simp only [String.data_append, List.length_append] at hlen
    have e1 : lb2.data.length = 2 := rfl
    have e2 : ("i18n:" : String).data.length = 5 := rfl
    have e3 : rb2.data.length = 2 := rfl
    rw [e1, e2, e3] at hlen
    omega
  rw [if_neg hne2]
  rw [show (9 : Nat) = 8 + 1 from rfl, i18nLoop]
  have hscan : i18nPass t k = k := by
    rw [i18nPass]
    rw [i18nScan_no_lbrace t _ k.data (fun c hc => (hb c hc).1)]
  rw [hscan]
  exact if_pos rfl

/-- Witness for `C8_missing_key_bare`: `{{i18n:foo}}` against a non-empty
table lacking `foo` yields `foo`. -/
theorem C8_missing_key_bare_witness :
    resolveI18nTokensInString (lb2 ++ "i18n:" ++ "foo" ++ rb2) [("x", "y")] = "foo" :=
  C8_missing_key_bare "foo" [("x", "y")] (by decide) (by decide) (by decide)
    (by decide) (by decide)

end SMS
